import Mathlib

/-!
Verification of the section layout engine of the timeviz repository:
the SectionStack class (src/lib/layout/SectionStack.ts), its error
taxonomy (src/lib/layout/SectionStackError.ts) and the configuration
types (src/lib/layout/types.ts).

The embedding is a direct translation of the TypeScript source:

* JS numbers are modeled as Int.  The engine only adds heights, takes
  maxima and compares against 0, so the choice of an exact numeric
  type is inessential.
* JS objects used as string-keyed maps are modeled as association
  lists; `obj[k]` becomes a first-match lookup and `obj[k] = v`
  becomes prepending (the first match shadows older entries).
* The recursive DFS helpers of the source are modeled with an
  explicit fuel parameter (the source relies on the JS call stack).
  The constructor supplies fuel `cfg.length + 1` to every top level
  visit, which is proved sufficient for the cycle-detection pass and
  is ample for every accepted (hence acyclic) configuration.
  `SectionStackError.modelError` is an artifact of this embedding
  (fuel exhaustion, or a lookup the source would crash on with a
  TypeError); it is proved unreachable where the claims need it.
-/

namespace Timeviz

/-- src/lib/layout/types.ts, interface SectionConfig.
`height?: number` and `heightRel?: string[]` are optional fields;
`from: string | null` with null modeled as `none`. -/
structure SectionConfig where
  height : Option Int
  heightRel : Option (List String)
  «from» : Option String
deriving DecidableEq

/-- src/lib/layout/types.ts, interface SectionsConfig (id keyed map). -/
abbrev SectionsConfig := List (String × SectionConfig)

/-- src/lib/layout/types.ts, interface SectionPosition. -/
structure SectionPosition where
  y : Int
  height : Int
deriving DecidableEq

/-- src/lib/layout/types.ts, interface SectionPositions (id keyed map). -/
abbrev SectionPositions := List (String × SectionPosition)

/-- src/lib/layout/SectionStackError.ts error taxonomy.  Each TS class
is one constructor carrying exactly the data its constructor receives.
`modelError` is the embedding artifact described in the header. -/
inductive SectionStackError where
  | base (message : String)
  | validation (message : String) (sectionId : String)
  | circular (sectionId : String) (dependencyChain : List String)
  | missing (referencedBy : String) (missingSectionId : String)
  | modelError
deriving DecidableEq

/-- `s.trim() === ""` of the source: the string holds nothing but
whitespace.  (String.trim of the core library does not reduce inside
the kernel, so the test is expressed over the character list.) -/
def isBlank (s : String) : Bool :=
  s.data.all (fun c => c.isWhitespace)

/-- `this.sections[sectionId]`: first-match lookup in the config map. -/
def getSection (cfg : SectionsConfig) (id : String) : Option SectionConfig :=
  (cfg.find? (fun e => e.1 == id)).map (fun e => e.2)

/-- `Object.keys(this.sections)`. -/
def sectionKeys (cfg : SectionsConfig) : List String :=
  cfg.map (fun e => e.1)

/-- `positions[sectionId]`: first-match lookup in the positions map. -/
def posLookup (ps : SectionPositions) (id : String) : Option SectionPosition :=
  (ps.find? (fun e => e.1 == id)).map (fun e => e.2)

/-- `positions[sectionId] = v` (JS assignment; first match shadows). -/
def posInsert (ps : SectionPositions) (id : String) (v : SectionPosition) :
    SectionPositions :=
  (id, v) :: ps

/-- `if (h < 0) ...` part of validateSection (the typeof check of the
source is satisfied by construction in the typed model). -/
def checkHeight (sectionId : String) : Option Int → Except SectionStackError Unit
  | none => .ok ()
  | some h =>
    if h < 0 then
      .error (.validation "Height must be a non-negative number" sectionId)
    else
      .ok ()

/-- Loop over heightRel entries rejecting blank strings. -/
def checkHeightRelEntries (sectionId : String) :
    List String → Except SectionStackError Unit
  | [] => .ok ()
  | r :: rs =>
    if isBlank r then
      .error (.validation "heightRel entries must be non-empty strings" sectionId)
    else
      checkHeightRelEntries sectionId rs

/-- heightRel validation: non-empty array of non-blank strings. -/
def checkHeightRel (sectionId : String) :
    Option (List String) → Except SectionStackError Unit
  | none => .ok ()
  | some l =>
    if l = [] then
      .error (.validation "heightRel must be a non-empty array" sectionId)
    else
      checkHeightRelEntries sectionId l

/-- from validation: null or a non-blank string. -/
def checkFrom (sectionId : String) :
    Option String → Except SectionStackError Unit
  | none => .ok ()
  | some f =>
    if isBlank f then
      .error (.validation "from property must be null or a non-empty string" sectionId)
    else
      .ok ()

/-- SectionStack.validateSection.  The source first requires height or
heightRel (`!section.heightRel` is false even for a present empty
array, hence the `= none` test), then rejects both being present, then
checks height, heightRel and from in that order. -/
def validateSection (sectionId : String) (s : SectionConfig) :
    Except SectionStackError Unit :=
  if s.height = none ∧ s.heightRel = none then
    .error (.validation "Section must have either height or heightRel property" sectionId)
  else if s.height.isSome ∧ s.heightRel.isSome then
    .error (.validation "Section cannot have both height and heightRel properties" sectionId)
  else
    match checkHeight sectionId s.height with
    | .error e => .error e
    | .ok _ =>
      match checkHeightRel sectionId s.heightRel with
      | .error e => .error e
      | .ok _ => checkFrom sectionId s.«from»

/-- The per-section validation loop of SectionStack.validate. -/
def validateSections : List (String × SectionConfig) → Except SectionStackError Unit
  | [] => .ok ()
  | (id, s) :: rest =>
    match validateSection id s with
    | .error e => .error e
    | .ok _ => validateSections rest

/-- The dependency edges the two DFS passes traverse from a section:
the from edge when `section.from` is truthy (a non-empty string) and
points to an existing section, and every heightRel entry that points
to an existing section.  Both passes of the source use exactly these
guards, and the guards only read the immutable configuration, so the
edge list can be computed up front. -/
def edgeTargets (cfg : SectionsConfig) (s : SectionConfig) : List String :=
  (match s.«from» with
   | some f => if f = "" then [] else if (getSection cfg f).isSome then [f] else []
   | none => []) ++
  (match s.heightRel with
   | some l => l.filter (fun r => (getSection cfg r).isSome)
   | none => [])

/-- The two sets maintained by SectionStack.detectCircularDependencies. -/
structure DfsState where
  visiting : List String
  visited : List String
deriving DecidableEq

/-- Sequencing of fallible visits over a list (the for-loops of the
source which abort on the first thrown error). -/
def runList {σ : Type} (f : String → σ → Except SectionStackError σ) :
    List String → σ → Except SectionStackError σ
  | [], st => .ok st
  | r :: rs, st =>
    match f r st with
    | .error e => .error e
    | .ok st2 => runList f rs st2

/-- The recursive `visit` closure of detectCircularDependencies.
Entry guards mirror the source: a node on the active recursion path
raises the circular error carrying the accumulated path, a fully
resolved node returns.  Dependencies are traversed with the path
extended by the current id, then the node moves from visiting to
visited.  Fuel replaces the JS call stack. -/
def visitDetect (cfg : SectionsConfig) :
    Nat → String → List String → DfsState → Except SectionStackError DfsState
  | 0, _, _, _ => .error .modelError
  | Nat.succ fuel, sectionId, path, st =>
    if sectionId ∈ st.visiting then
      .error (.circular sectionId path)
    else if sectionId ∈ st.visited then
      .ok st
    else
      match getSection cfg sectionId with
      | none => .error .modelError
      | some s =>
        match runList (fun r st2 => visitDetect cfg fuel r (path ++ [sectionId]) st2)
            (edgeTargets cfg s) ⟨sectionId :: st.visiting, st.visited⟩ with
        | .error e => .error e
        | .ok st3 => .ok ⟨st3.visiting.erase sectionId, sectionId :: st3.visited⟩

/-- The outer loop of detectCircularDependencies over all section ids. -/
def detectVisitAll (cfg : SectionsConfig) (fuel : Nat) :
    List String → DfsState → Except SectionStackError DfsState
  | [], st => .ok st
  | id :: ids, st =>
    match visitDetect cfg fuel id [] st with
    | .error e => .error e
    | .ok st2 => detectVisitAll cfg fuel ids st2

/-- SectionStack.detectCircularDependencies. -/
def detectCircularDependencies (cfg : SectionsConfig) :
    Except SectionStackError Unit :=
  match detectVisitAll cfg (cfg.length + 1) (sectionKeys cfg) ⟨[], []⟩ with
  | .error e => .error e
  | .ok _ => .ok ()

/-- The heightRel reference loop of SectionStack.validateReferences. -/
def checkRefList (cfg : SectionsConfig) (sectionId : String) :
    List String → Except SectionStackError Unit
  | [] => .ok ()
  | r :: rs =>
    if (getSection cfg r).isSome then
      checkRefList cfg sectionId rs
    else
      .error (.missing sectionId r)

/-- SectionStack.validateReferences: for each section, the truthy from
reference must exist, then every heightRel reference must exist. -/
def validateReferencesAux (cfg : SectionsConfig) :
    List (String × SectionConfig) → Except SectionStackError Unit
  | [] => .ok ()
  | (sectionId, s) :: rest =>
    match (match s.«from» with
           | some f =>
             if f = "" then Except.ok ()
             else if (getSection cfg f).isSome then Except.ok ()
             else Except.error (SectionStackError.missing sectionId f)
           | none => Except.ok ()) with
    | .error e => .error e
    | .ok _ =>
      match (match s.heightRel with
             | some l => checkRefList cfg sectionId l
             | none => Except.ok ()) with
      | .error e => .error e
      | .ok _ => validateReferencesAux cfg rest

/-- SectionStack.validateReferences entry point. -/
def validateReferences (cfg : SectionsConfig) : Except SectionStackError Unit :=
  validateReferencesAux cfg cfg

/-- SectionStack.validate: empty check, per-section validation, cycle
detection, then reference validation, in source order. -/
def validate (cfg : SectionsConfig) : Except SectionStackError Unit :=
  if cfg.length = 0 then
    .error (.base "Sections configuration cannot be empty")
  else
    match validateSections cfg with
    | .error e => .error e
    | .ok _ =>
      match detectCircularDependencies cfg with
      | .error e => .error e
      | .ok _ => validateReferences cfg

/-- The recursive `visit` closure of SectionStack.topologicalSort.
The source keeps a Set `visited` and an array `sorted` that are always
updated together, so the pair is modeled by the single list `sorted`,
testing membership where the source tests `visited.has`. -/
def visitTopo (cfg : SectionsConfig) :
    Nat → String → List String → Except SectionStackError (List String)
  | 0, _, _ => .error .modelError
  | Nat.succ fuel, sectionId, sorted =>
    if sectionId ∈ sorted then
      .ok sorted
    else
      match getSection cfg sectionId with
      | none => .error .modelError
      | some s =>
        match runList (fun r l => visitTopo cfg fuel r l) (edgeTargets cfg s) sorted with
        | .error e => .error e
        | .ok sorted2 => .ok (sorted2 ++ [sectionId])

/-- SectionStack.topologicalSort. -/
def topologicalSort (cfg : SectionsConfig) :
    Except SectionStackError (List String) :=
  runList (fun id l => visitTopo cfg (cfg.length + 1) id l) (sectionKeys cfg) []

/-- The reduce of the heightRel branch of calculateAll: prefer the
literal height of the referenced section, fall back to its already
computed position height, else contribute nothing.  Reading a missing
section would crash the source with a TypeError (modeled by
modelError); reference validation rules it out. -/
def heightRelSum (cfg : SectionsConfig) (positions : SectionPositions) :
    List String → Int → Except SectionStackError Int
  | [], acc => .ok acc
  | refId :: rest, acc =>
    match getSection cfg refId with
    | none => .error .modelError
    | some refSection =>
      match refSection.height with
      | some h => heightRelSum cfg positions rest (acc + h)
      | none =>
        match posLookup positions refId with
        | some p => heightRelSum cfg positions rest (acc + p.height)
        | none => heightRelSum cfg positions rest acc

/-- The height computation for one section in calculateAll. -/
def heightValue (cfg : SectionsConfig) (positions : SectionPositions)
    (s : SectionConfig) : Except SectionStackError Int :=
  match s.height with
  | some h => .ok h
  | none =>
    match s.heightRel with
    | some l => heightRelSum cfg positions l 0
    | none => .ok 0

/-- The y computation for one section in calculateAll: 0 unless the
truthy from target already has a computed position. -/
def yValue (cfg : SectionsConfig) (positions : SectionPositions)
    (s : SectionConfig) : Int :=
  match s.«from» with
  | some f =>
    if f = "" then 0
    else
      match posLookup positions f with
      | some fp => fp.y + fp.height
      | none => 0
  | none => 0

/-- One iteration of the calculation loop of calculateAll. -/
def calcSection (cfg : SectionsConfig) (positions : SectionPositions)
    (sectionId : String) : Except SectionStackError SectionPositions :=
  match getSection cfg sectionId with
  | none => .error .modelError
  | some s =>
    match heightValue cfg positions s with
    | .error e => .error e
    | .ok height => .ok (posInsert positions sectionId ⟨yValue cfg positions s, height⟩)

/-- SectionStack.calculateAll: topological sort, then one pass
computing height and y per section in that order. -/
def calculateAll (cfg : SectionsConfig) : Except SectionStackError SectionPositions :=
  match topologicalSort cfg with
  | .error e => .error e
  | .ok sorted => runList (fun id ps => calcSection cfg ps id) sorted []

/-- The constructed SectionStack instance. -/
structure SectionStack where
  sections : SectionsConfig
  calculated : SectionPositions
deriving DecidableEq

/-- The SectionStack constructor: validate, then calculate.  The
initial typeof guard of the source is satisfied by construction in the
typed model. -/
def constructStack (cfg : SectionsConfig) : Except SectionStackError SectionStack :=
  match validate cfg with
  | .error e => .error e
  | .ok _ =>
    match calculateAll cfg with
    | .error e => .error e
    | .ok ps => .ok ⟨cfg, ps⟩

/-- SectionStack.getY. -/
def getY (st : SectionStack) (sectionId : String) : Except SectionStackError Int :=
  match posLookup st.calculated sectionId with
  | none =>
    .error (.base ("Section " ++ sectionId ++ " not found in calculated positions"))
  | some p => .ok p.y

/-- SectionStack.getHeight. -/
def getHeight (st : SectionStack) (sectionId : String) : Except SectionStackError Int :=
  match posLookup st.calculated sectionId with
  | none =>
    .error (.base ("Section " ++ sectionId ++ " not found in calculated positions"))
  | some p => .ok p.height

/-- SectionStack.getTotalHeight: reduce of max over extents, seed 0. -/
def getTotalHeight (st : SectionStack) : Int :=
  (st.calculated.map (fun e => e.2)).foldl (fun m p => max m (p.y + p.height)) 0

/-- SectionStack.hasSection. -/
def hasSection (st : SectionStack) (sectionId : String) : Bool :=
  (posLookup st.calculated sectionId).isSome

/-- A single dependency edge of the graph the DFS passes traverse. -/
def edgeB (cfg : SectionsConfig) (a b : String) : Bool :=
  match getSection cfg a with
  | some s => b ∈ edgeTargets cfg s
  | none => false

/-- A nonempty edge chain from `a` through the intermediate nodes `l`
to `b`. -/
def chainB (cfg : SectionsConfig) : String → List String → String → Bool
  | a, [], b => edgeB cfg a b
  | a, x :: xs, b => edgeB cfg a x && chainB cfg x xs b

/-- The configuration has a from or heightRel reference (as traversed
by the source: a truthy from, or any heightRel entry) to an id that is
not a key of the mapping. -/
def hasMissingRef (cfg : SectionsConfig) : Bool :=
  cfg.any (fun e =>
    (match e.2.«from» with
     | some f => decide (f ≠ "") && (getSection cfg f).isNone
     | none => false) ||
    (match e.2.heightRel with
     | some l => l.any (fun r => (getSection cfg r).isNone)
     | none => false))

/-- Following from links from a section eventually reaches a root
section whose from is null. -/
inductive ReachesRoot (cfg : SectionsConfig) : String → Prop where
  | root (id : String) (s : SectionConfig) :
      getSection cfg id = some s → s.«from» = none → ReachesRoot cfg id
  | step (id : String) (s : SectionConfig) (f : String) :
      getSection cfg id = some s → s.«from» = some f →
      ReachesRoot cfg f → ReachesRoot cfg id

/-!
### Reference model of getAll

`getAll` returns `{ ...this.calculated }`.  The spread operator builds
a fresh top-level object whose entries hold the same references to the
per-section SectionPosition record objects.  To reason about this
aliasing, position records live in a heap of cells and the calculated
map binds ids to cell indices; `spreadCopy` copies the map (a new
top-level object) while reusing the cell pointers, exactly as the
spread does.  Query methods read through the instance map into the
heap. -/

abbrev PosHeap := List SectionPosition

abbrev RefMap := List (String × Nat)

/-- Dereference one SectionPosition record object. -/
def readCell (h : PosHeap) (i : Nat) : Option SectionPosition :=
  h.get? i

/-- Mutate one SectionPosition record object in place. -/
def writeCell (h : PosHeap) (i : Nat) (v : SectionPosition) : PosHeap :=
  h.set i v

/-- `map[id]` on the id-to-record-reference map. -/
def refLookup (m : RefMap) (id : String) : Option Nat :=
  (m.find? (fun e => e.1 == id)).map (fun e => e.2)

/-- `{ ...m }`: a fresh top-level map holding the same record
references. -/
def spreadCopy (m : RefMap) : RefMap :=
  m.map (fun e => e)

/-- `getY` reading through the instance map into the heap. -/
def getYRef (h : PosHeap) (m : RefMap) (id : String) : Option Int :=
  (refLookup m id).bind (fun i => (readCell h i).map (fun p => p.y))

/-! ### Concrete configurations used by the witnesses -/

/-- A three-section layout exercising from chains and heightRel. -/
def cfgW1 : SectionsConfig :=
  [("header", ⟨some 20, none, none⟩),
   ("solar", ⟨some 30, none, some "header"⟩),
   ("main", ⟨none, some ["header", "solar"], some "solar"⟩)]

/-- The stack the constructor computes for cfgW1. -/
def stW1 : SectionStack :=
  ⟨cfgW1, [("main", ⟨50, 50⟩), ("solar", ⟨20, 30⟩), ("header", ⟨0, 20⟩)]⟩

/-- A section with neither height nor heightRel. -/
def cfgC8a : SectionsConfig := [("bad", ⟨none, none, none⟩)]

/-- A section with both height and heightRel. -/
def cfgC8b : SectionsConfig := [("bad2", ⟨some 3, some ["bad"], none⟩)]

/-- A two-section from cycle plus a third section with a reference to
a missing id: both a cycle and a missing reference are present. -/
def cfgC5w : SectionsConfig :=
  [("a", ⟨some 10, none, some "b"⟩), ("b", ⟨some 5, none, some "a"⟩),
   ("c", ⟨none, some ["zz"], none⟩)]

/-- An acyclic configuration whose section b references missing id
zz through from. -/
def cfgC7w : SectionsConfig :=
  [("a", ⟨some 10, none, none⟩), ("b", ⟨some 5, none, some "zz"⟩)]

/-- Every occurrence of a section in the list is preceded by all its
traversed dependency targets. -/
def GoodOrder (cfg : SectionsConfig) (L : List String) : Prop :=
  ∀ L1 id L2, L = L1 ++ id :: L2 → ∀ s, getSection cfg id = some s →
    ∀ d ∈ edgeTargets cfg s, d ∈ L1

/-- Postcondition of one successful topological-sort visit. -/
def TopoPost (cfg : SectionsConfig) (id : String) (sorted sorted2 : List String) :
    Prop :=
  (∃ Δ, sorted2 = sorted ++ Δ) ∧ id ∈ sorted2 ∧
  (∀ x ∈ sorted2, x ∈ sorted ∨ x ∈ sectionKeys cfg) ∧
  (GoodOrder cfg sorted → GoodOrder cfg sorted2)

/-- Every stored entry is the visible binding of its key (duplicated
keys can only carry the same value). -/
def Uniform (ps : SectionPositions) : Prop :=
  ∀ e ∈ ps, posLookup ps e.1 = some e.2

/-- All computed coordinates are non-negative. -/
def NonNegP (ps : SectionPositions) : Prop :=
  ∀ id p, posLookup ps id = some p → 0 ≤ p.y ∧ 0 ≤ p.height

/-- Every stored position satisfies the defining equations of the
calculation loop with respect to the full map, and all its dependency
targets are stored. -/
def Consistent (cfg : SectionsConfig) (ps : SectionPositions) : Prop :=
  ∀ id p, posLookup ps id = some p → ∃ s, getSection cfg id = some s ∧
    (∀ d ∈ edgeTargets cfg s, (posLookup ps d).isSome = true) ∧
    heightValue cfg ps s = .ok p.height ∧ yValue cfg ps s = p.y

/-- The domain of the map is exactly the processed prefix. -/
def DomIff (ps : SectionPositions) (done : List String) : Prop :=
  ∀ x, (posLookup ps x).isSome = true ↔ x ∈ done

/-- The computed height of a section id, 0 when absent. -/
def posHeight (ps : SectionPositions) (r : String) : Int :=
  match posLookup ps r with
  | some p => p.height
  | none => 0

/-- The black set of the DFS: every edge out of it stays inside. -/
def Closed (cfg : SectionsConfig) (V : List String) : Prop :=
  ∀ a ∈ V, ∀ s, getSection cfg a = some s → ∀ b ∈ edgeTargets cfg s, b ∈ V

/-- No member of the set lies on a dependency cycle. -/
def NoCyc (cfg : SectionsConfig) (V : List String) : Prop :=
  ∀ a ∈ V, ∀ l, chainB cfg a l a = false

/-! ### Basic lookup lemmas -/

theorem findMap_mem {α : Type} {l : List (String × α)} {id : String} {a : α}
    (h : (l.find? (fun e => e.1 == id)).map (fun e => e.2) = some a) :
    (id, a) ∈ l := by
  induction l with
  | nil => simp [List.find?] at h
  | cons e rest ih =>
    by_cases he : e.1 = id
    · rw [List.find?_cons_of_pos _ (by simp [he])] at h
      have h2 : e.2 = a := by simpa using h
      rcases e with ⟨k, v⟩
      cases he
      cases h2
      exact List.mem_cons_self _ _
    · rw [List.find?_cons_of_neg _ (by simp [he])] at h
      exact List.mem_cons_of_mem _ (ih h)

theorem findMap_isSome {α : Type} {l : List (String × α)} {id : String} :
    ((l.find? (fun e => e.1 == id)).map (fun e => e.2)).isSome = true ↔
      id ∈ l.map (fun e => e.1) := by
  induction l with
  | nil => simp [List.find?]
  | cons e rest ih =>
    by_cases he : e.1 = id
    · rw [List.find?_cons_of_pos _ (by simp [he])]
      simp [he]
    · rw [List.find?_cons_of_neg _ (by simp [he])]
      simp only [List.map_cons, List.mem_cons]
      rw [ih]
      constructor
      · exact Or.inr
      · rintro (h | h)
        · exact absurd h.symm he
        · exact h

theorem getSection_mem {cfg : SectionsConfig} {id : String} {s : SectionConfig}
    (h : getSection cfg id = some s) : (id, s) ∈ cfg :=
  findMap_mem h

theorem getSection_isSome_iff {cfg : SectionsConfig} {id : String} :
    (getSection cfg id).isSome = true ↔ id ∈ sectionKeys cfg :=
  findMap_isSome

theorem posLookup_mem {ps : SectionPositions} {id : String} {p : SectionPosition}
    (h : posLookup ps id = some p) : (id, p) ∈ ps :=
  findMap_mem h

theorem posLookup_isSome_iff {ps : SectionPositions} {id : String} :
    (posLookup ps id).isSome = true ↔ id ∈ ps.map (fun e => e.1) :=
  findMap_isSome

theorem mem_sectionKeys {cfg : SectionsConfig} {id : String} {s : SectionConfig}
    (h : (id, s) ∈ cfg) : id ∈ sectionKeys cfg := by
  exact List.mem_map.mpr ⟨(id, s), h, rfl⟩

theorem getSection_isSome_of_mem {cfg : SectionsConfig} {id : String}
    {s : SectionConfig} (h : (id, s) ∈ cfg) : (getSection cfg id).isSome = true :=
  getSection_isSome_iff.mpr (mem_sectionKeys h)

theorem posLookup_insert_self {ps : SectionPositions} {id : String}
    {v : SectionPosition} : posLookup (posInsert ps id v) id = some v := by
  simp [posLookup, posInsert, List.find?_cons_of_pos]

theorem posLookup_insert_ne {ps : SectionPositions} {id x : String}
    {v : SectionPosition} (h : x ≠ id) :
    posLookup (posInsert ps id v) x = posLookup ps x := by
  simp only [posLookup, posInsert]
  rw [List.find?_cons_of_neg _ (by simpa using fun hh => h hh.symm)]

/-! ### Per-section validation facts -/

theorem checkHeightRelEntries_ok {id : String} {l : List String}
    (h : checkHeightRelEntries id l = .ok ()) :
    ∀ r ∈ l, isBlank r = false := by
  induction l with
  | nil => simp
  | cons r rs ih =>
    intro x hx
    rw [checkHeightRelEntries] at h
    by_cases hb : isBlank r
    · rw [if_pos hb] at h; cases h
    · rw [if_neg hb] at h
      rcases List.mem_cons.mp hx with rfl | hx
      · simpa using hb
      · exact ih h x hx

theorem validateSection_ok_facts {id : String} {s : SectionConfig}
    (h : validateSection id s = .ok ()) :
    (s.height ≠ none ∨ s.heightRel ≠ none) ∧
    ¬(s.height.isSome = true ∧ s.heightRel.isSome = true) ∧
    (∀ hv, s.height = some hv → 0 ≤ hv) ∧
    (∀ l, s.heightRel = some l → l ≠ [] ∧ ∀ r ∈ l, isBlank r = false) ∧
    (∀ f, s.«from» = some f → isBlank f = false) := by
  rw [validateSection] at h
  by_cases h1 : s.height = none ∧ s.heightRel = none
  · rw [if_pos h1] at h; cases h
  rw [if_neg h1] at h
  by_cases h2 : s.height.isSome = true ∧ s.heightRel.isSome = true
  · rw [if_pos h2] at h; cases h
  rw [if_neg h2] at h
  refine ⟨?_, h2, ?_, ?_, ?_⟩
  · by_cases hh : s.height = none
    · exact Or.inr (by tauto)
    · exact Or.inl hh
  · intro hv hhv
    rw [hhv] at h
    rw [checkHeight] at h
    by_cases hlt : hv < 0
    · rw [if_pos hlt] at h; cases h
    · omega
  · intro l hl
    rw [hl] at h
    rcases hce : checkHeight id s.height with e | u
    · rw [hce] at h; cases h
    rw [hce] at h
    rw [checkHeightRel] at h
    by_cases hnil : l = []
    · rw [if_pos hnil] at h; cases h
    rw [if_neg hnil] at h
    rcases hcr : checkHeightRelEntries id l with e | u
    · rw [hcr] at h; cases h
    refine ⟨hnil, checkHeightRelEntries_ok hcr⟩
  · intro f hf
    rcases hce : checkHeight id s.height with e | u
    · rw [hce] at h; cases h
    rw [hce] at h
    rcases hcr : checkHeightRel id s.heightRel with e | u
    · rw [hcr] at h; cases h
    rw [hcr] at h
    rw [hf, checkFrom] at h
    by_cases hb : isBlank f
    · rw [if_pos hb] at h; cases h
    · simpa using hb

theorem validateSections_ok_mem {l : List (String × SectionConfig)}
    (h : validateSections l = .ok ()) :
    ∀ e ∈ l, validateSection e.1 e.2 = .ok () := by
  induction l with
  | nil => simp
  | cons e rest ih =>
    intro x hx
    rw [validateSections] at h
    rcases hv : validateSection e.1 e.2 with er | u
    · rw [hv] at h; cases h
    · rw [hv] at h
      rcases List.mem_cons.mp hx with rfl | hx
      · rcases u with ⟨⟩; exact hv
      · exact ih h x hx

theorem blank_of_empty : isBlank "" = true := rfl

theorem ne_empty_of_not_blank {f : String} (h : isBlank f = false) : f ≠ "" := by
  intro hf
  rw [hf] at h
  cases h

/-! ### Reference validation facts -/

theorem checkRefList_ok {cfg : SectionsConfig} {id : String} {l : List String}
    (h : checkRefList cfg id l = .ok ()) :
    ∀ r ∈ l, (getSection cfg r).isSome = true := by
  induction l with
  | nil => simp
  | cons r rs ih =>
    intro x hx
    rw [checkRefList] at h
    by_cases hs : (getSection cfg r).isSome = true
    · rw [if_pos hs] at h
      rcases List.mem_cons.mp hx with rfl | hx
      · exact hs
      · exact ih h x hx
    · rw [if_neg hs] at h; cases h

theorem validateReferencesAux_ok_mem {cfg : SectionsConfig}
    {l : List (String × SectionConfig)}
    (h : validateReferencesAux cfg l = .ok ()) :
    ∀ e ∈ l,
      (∀ f, e.2.«from» = some f → f ≠ "" → (getSection cfg f).isSome = true) ∧
      (∀ lr r, e.2.heightRel = some lr → r ∈ lr → (getSection cfg r).isSome = true) := by
  induction l with
  | nil => simp
  | cons e rest ih =>
    intro x hx
    rcases e with ⟨sectionId, s⟩
    rw [validateReferencesAux] at h
    rcases hfc : (match s.«from» with
           | some f =>
             if f = "" then Except.ok ()
             else if (getSection cfg f).isSome then Except.ok ()
             else Except.error (SectionStackError.missing sectionId f)
           | none => Except.ok ()) with er | u
    · rw [hfc] at h; cases h
    rw [hfc] at h
    rcases hhc : (match s.heightRel with
             | some l => checkRefList cfg sectionId l
             | none => Except.ok ()) with er | u
    · rw [hhc] at h; cases h
    rw [hhc] at h
    rcases List.mem_cons.mp hx with rfl | hx
    · constructor
      · intro f hf hne
        by_cases hs : (getSection cfg f).isSome = true
        · exact hs
        · exfalso
          rw [hf] at hfc
          simp [hne, hs] at hfc
      · intro lr r hlr hr
        rw [hlr] at hhc
        exact checkRefList_ok hhc r hr
    · exact ih h x hx

/-! ### Topological sort: a successful run lists every dependency of a
section before the section itself -/

theorem goodOrder_nil (cfg : SectionsConfig) : GoodOrder cfg [] := by
  intro L1 id L2 h
  exact absurd h (by simp)

theorem snoc_inj {α : Type} {L M : List α} {x a : α}
    (h : L ++ [x] = M ++ [a]) : L = M ∧ x = a := by
  have h2 := congrArg List.reverse h
  simp only [List.reverse_append, List.reverse_singleton,
    List.singleton_append] at h2
  injection h2 with h3 h4
  exact ⟨List.reverse_injective h4, h3⟩

theorem append_singleton_split {α : Type} {L1 : List α} {x : α} {L2 M : List α}
    {a : α} (h : L1 ++ x :: L2 = M ++ [a]) :
    (L1 = M ∧ x = a ∧ L2 = []) ∨
      ∃ L2p, L2 = L2p ++ [a] ∧ M = L1 ++ x :: L2p := by
  rcases List.eq_nil_or_concat L2 with rfl | ⟨l2, b, rfl⟩
  · left
    obtain ⟨h1, h2⟩ := snoc_inj h
    exact ⟨h1, h2, rfl⟩
  · right
    have h2 : (L1 ++ x :: l2) ++ [b] = M ++ [a] := by
      simp only [List.concat_eq_append] at h
      rw [← h, List.append_assoc, List.cons_append]
    obtain ⟨h3, rfl⟩ := snoc_inj h2
    exact ⟨l2, by simp, h3.symm⟩

theorem runListVisit_post (cfg : SectionsConfig)
    (V : String → List String → Except SectionStackError (List String))
    (hV : ∀ id s0 s1, V id s0 = .ok s1 → TopoPost cfg id s0 s1) :
    ∀ (l : List String) (s0 s1 : List String),
      runList (fun r l2 => V r l2) l s0 = .ok s1 →
      (∃ Δ, s1 = s0 ++ Δ) ∧ (∀ r ∈ l, r ∈ s1) ∧
      (∀ x ∈ s1, x ∈ s0 ∨ x ∈ sectionKeys cfg) ∧
      (GoodOrder cfg s0 → GoodOrder cfg s1) := by
  intro l
  induction l with
  | nil =>
    intro s0 s1 h
    rw [runList] at h
    cases h
    exact ⟨⟨[], by simp⟩, by simp, fun x hx => Or.inl hx, fun g => g⟩
  | cons r rs ih =>
    intro s0 s1 h
    rw [runList] at h
    rcases hr : V r s0 with e | sm
    · rw [hr] at h; cases h
    · rw [hr] at h
      obtain ⟨⟨Δ1, hΔ1⟩, hrm, hk1, hg1⟩ := hV r s0 sm hr
      obtain ⟨⟨Δ2, hΔ2⟩, hrs, hk2, hg2⟩ := ih sm s1 h
      refine ⟨⟨Δ1 ++ Δ2, by rw [hΔ2, hΔ1, List.append_assoc]⟩, ?_, ?_, ?_⟩
      · intro x hx
        rcases List.mem_cons.mp hx with rfl | hx
        · rw [hΔ2]
          exact List.mem_append_left _ hrm
        · exact hrs x hx
      · intro x hx
        rcases hk2 x hx with hx2 | hx2
        · rcases hk1 x hx2 with hx3 | hx3
          · exact Or.inl hx3
          · exact Or.inr hx3
        · exact Or.inr hx2
      · intro g
        exact hg2 (hg1 g)

theorem visitTopo_post (cfg : SectionsConfig) :
    ∀ (fuel : Nat) (id : String) (sorted sorted2 : List String),
      visitTopo cfg fuel id sorted = .ok sorted2 →
      TopoPost cfg id sorted sorted2 := by
  intro fuel
  induction fuel with
  | zero =>
    intro id sorted sorted2 h
    rw [visitTopo] at h
    cases h
  | succ fuel ih =>
    intro id sorted sorted2 h
    rw [visitTopo] at h
    by_cases hin : id ∈ sorted
    · rw [if_pos hin] at h
      cases h
      exact ⟨⟨[], by simp⟩, hin, fun x hx => Or.inl hx, fun g => g⟩
    · rw [if_neg hin] at h
      rcases hgs : getSection cfg id with _ | s
      · simp only [hgs] at h
        cases h
      · simp only [hgs] at h
        rcases hrl : runList (fun r l => visitTopo cfg fuel r l)
            (edgeTargets cfg s) sorted with e | sorted3
        · rw [hrl] at h; cases h
        · rw [hrl] at h
          cases h
          obtain ⟨⟨Δ, hΔ⟩, htg, hkeys, hgood⟩ :=
            runListVisit_post cfg (visitTopo cfg fuel) ih (edgeTargets cfg s)
              sorted sorted3 hrl
          have hidkey : id ∈ sectionKeys cfg :=
            getSection_isSome_iff.mp (by rw [hgs]; rfl)
          refine ⟨⟨Δ ++ [id], by rw [hΔ, List.append_assoc]⟩, ?_, ?_, ?_⟩
          · exact List.mem_append_right _ (by simp)
          · intro x hx
            rcases List.mem_append.mp hx with hx2 | hx2
            · exact hkeys x hx2
            · rcases List.mem_singleton.mp hx2 with rfl
              exact Or.inr hidkey
          · intro g
            have g3 := hgood g
            intro L1 x L2 hsplit s2 hgs2 d hd
            rcases append_singleton_split hsplit.symm with
              ⟨rfl, rfl, rfl⟩ | ⟨L2p, rfl, hM⟩
            · rw [hgs] at hgs2
              cases hgs2
              exact htg d hd
            · exact g3 L1 x L2p hM s2 hgs2 d hd

theorem topologicalSort_post {cfg : SectionsConfig} {L : List String}
    (h : topologicalSort cfg = .ok L) :
    (∀ k ∈ sectionKeys cfg, k ∈ L) ∧ (∀ x ∈ L, x ∈ sectionKeys cfg) ∧
      GoodOrder cfg L := by
  rw [topologicalSort] at h
  obtain ⟨_, hkeys, hsub, hgood⟩ :=
    runListVisit_post cfg (visitTopo cfg (cfg.length + 1))
      (fun id s0 s1 hh => visitTopo_post cfg (cfg.length + 1) id s0 s1 hh)
      (sectionKeys cfg) [] L h
  refine ⟨hkeys, ?_, hgood (goodOrder_nil cfg)⟩
  intro x hx
  rcases hsub x hx with hx2 | hx2
  · cases hx2
  · exact hx2

/-! ### Invariants of the position-calculation pass -/

theorem posLookup_insert_lookup {ps : SectionPositions} {id : String}
    {v : SectionPosition} (h : posLookup ps id = some v) :
    ∀ x, posLookup (posInsert ps id v) x = posLookup ps x := by
  intro x
  by_cases hx : x = id
  · subst hx
    rw [posLookup_insert_self, h]
  · exact posLookup_insert_ne hx

theorem mem_edgeTargets_from {cfg : SectionsConfig} {s : SectionConfig}
    {f : String} (hf : s.«from» = some f) (hne : f ≠ "")
    (hex : (getSection cfg f).isSome = true) : f ∈ edgeTargets cfg s := by
  simp [edgeTargets, hf, hne, hex]

theorem mem_edgeTargets_heightRel {cfg : SectionsConfig} {s : SectionConfig}
    {lrel : List String} {r : String} (hl : s.heightRel = some lrel)
    (hr : r ∈ lrel) (hex : (getSection cfg r).isSome = true) :
    r ∈ edgeTargets cfg s := by
  rw [edgeTargets, hl]
  exact List.mem_append_right _ (List.mem_filter.mpr ⟨hr, hex⟩)

theorem heightRelSum_congr {cfg : SectionsConfig} {ps1 ps2 : SectionPositions}
    {l : List String}
    (hl : ∀ r ∈ l, ∀ sr, getSection cfg r = some sr → sr.height = none →
      posLookup ps2 r = posLookup ps1 r) :
    ∀ acc, heightRelSum cfg ps2 l acc = heightRelSum cfg ps1 l acc := by
  induction l with
  | nil => intro acc; rfl
  | cons r rs ih =>
    intro acc
    have ihr := ih (fun x hx => hl x (List.mem_cons_of_mem _ hx))
    rcases hgs : getSection cfg r with _ | sr
    · simp only [heightRelSum, hgs]
    · rcases hh : sr.height with _ | h0
      · simp only [heightRelSum, hgs, hh]
        rw [hl r (List.mem_cons_self _ _) sr hgs hh]
        rcases posLookup ps1 r with _ | p
        · exact ihr acc
        · exact ihr (acc + p.height)
      · simp only [heightRelSum, hgs, hh]
        exact ihr (acc + h0)

theorem heightValue_congr {cfg : SectionsConfig} {ps1 ps2 : SectionPositions}
    {s : SectionConfig}
    (hl : ∀ lrel, s.heightRel = some lrel → ∀ r ∈ lrel, ∀ sr,
      getSection cfg r = some sr → sr.height = none →
      posLookup ps2 r = posLookup ps1 r) :
    heightValue cfg ps2 s = heightValue cfg ps1 s := by
  rw [heightValue, heightValue]
  rcases s.height with _ | h0
  · rcases hrl : s.heightRel with _ | lrel
    · rfl
    · exact heightRelSum_congr (hl lrel hrl) 0
  · rfl

theorem yValue_congr {cfg : SectionsConfig} {ps1 ps2 : SectionPositions}
    {s : SectionConfig}
    (hf : ∀ f, s.«from» = some f → f ≠ "" → posLookup ps2 f = posLookup ps1 f) :
    yValue cfg ps2 s = yValue cfg ps1 s := by
  rcases hfr : s.«from» with _ | f
  · simp [yValue, hfr]
  · by_cases hne : f = ""
    · simp [yValue, hfr, hne]
    · simp only [yValue, hfr]
      rw [if_neg hne, if_neg hne, hf f hfr hne]

theorem consistent_ext {cfg : SectionsConfig} {ps1 ps2 : SectionPositions}
    (hext : ∀ x, posLookup ps2 x = posLookup ps1 x)
    (hc : Consistent cfg ps1) : Consistent cfg ps2 := by
  intro id p hp
  rw [hext] at hp
  obtain ⟨s, hgs, hdeps, hh, hy⟩ := hc id p hp
  refine ⟨s, hgs, ?_, ?_, ?_⟩
  · intro d hd
    rw [hext]
    exact hdeps d hd
  · rw [heightValue_congr (fun lrel _ r _ sr _ _ => hext r)]
    exact hh
  · rw [yValue_congr (fun f _ _ => hext f)]
    exact hy

theorem heightRelSum_ok {cfg : SectionsConfig} {ps : SectionPositions}
    {l : List String} (h : ∀ r ∈ l, (getSection cfg r).isSome = true) :
    ∀ acc, ∃ v, heightRelSum cfg ps l acc = .ok v := by
  induction l with
  | nil => intro acc; exact ⟨acc, rfl⟩
  | cons r rs ih =>
    intro acc
    have ihr := ih (fun x hx => h x (List.mem_cons_of_mem _ hx))
    have hr := h r (List.mem_cons_self _ _)
    rcases hgs : getSection cfg r with _ | sr
    · rw [hgs] at hr; cases hr
    · rcases hh : sr.height with _ | h0
      · rcases hpl : posLookup ps r with _ | p
        · simp only [heightRelSum, hgs, hh, hpl]
          exact ihr acc
        · simp only [heightRelSum, hgs, hh, hpl]
          exact ihr (acc + p.height)
      · simp only [heightRelSum, hgs, hh]
        exact ihr (acc + h0)

theorem heightRelSum_nonneg {cfg : SectionsConfig} {ps : SectionPositions}
    {l : List String}
    (hsec : ∀ r ∈ l, ∀ sr, getSection cfg r = some sr →
      ∀ hv, sr.height = some hv → 0 ≤ hv)
    (hnn : NonNegP ps) :
    ∀ acc v, heightRelSum cfg ps l acc = .ok v → 0 ≤ acc → 0 ≤ v := by
  induction l with
  | nil =>
    intro acc v h hacc
    rw [heightRelSum] at h
    cases h
    exact hacc
  | cons r rs ih =>
    intro acc v h hacc
    have ihr := ih (fun x hx => hsec x (List.mem_cons_of_mem _ hx))
    rcases hgs : getSection cfg r with _ | sr
    · simp only [heightRelSum, hgs] at h
      cases h
    · rcases hh : sr.height with _ | h0
      · rcases hpl : posLookup ps r with _ | p
        · simp only [heightRelSum, hgs, hh, hpl] at h
          exact ihr acc v h hacc
        · simp only [heightRelSum, hgs, hh, hpl] at h
          have hp := (hnn r p hpl).2
          exact ihr (acc + p.height) v h (by omega)
      · simp only [heightRelSum, hgs, hh] at h
        have h0nn := hsec r (List.mem_cons_self _ _) sr hgs h0 hh
        exact ihr (acc + h0) v h (by omega)

theorem heightRelSum_eq_sum {cfg : SectionsConfig} {ps : SectionPositions}
    {l : List String}
    (hlit : ∀ r ∈ l, ∀ sr, getSection cfg r = some sr →
      ∀ hv, sr.height = some hv → posHeight ps r = hv)
    (hex : ∀ r ∈ l, (getSection cfg r).isSome = true)
    (hstored : ∀ r ∈ l, (posLookup ps r).isSome = true) :
    ∀ acc, heightRelSum cfg ps l acc = .ok (acc + (l.map (posHeight ps)).sum) := by
  induction l with
  | nil => intro acc; simp [heightRelSum]
  | cons r rs ih =>
    intro acc
    have ihr := ih (fun x hx => hlit x (List.mem_cons_of_mem _ hx))
      (fun x hx => hex x (List.mem_cons_of_mem _ hx))
      (fun x hx => hstored x (List.mem_cons_of_mem _ hx))
    have hr := hex r (List.mem_cons_self _ _)
    rcases hgs : getSection cfg r with _ | sr
    · rw [hgs] at hr; cases hr
    · rcases hh : sr.height with _ | h0
      · rcases hpl : posLookup ps r with _ | p
        · have := hstored r (List.mem_cons_self _ _)
          rw [hpl] at this; cases this
        · simp only [heightRelSum, hgs, hh, hpl]
          rw [ihr (acc + p.height)]
          have hph : posHeight ps r = p.height := by
            rw [posHeight, hpl]
          simp only [List.map_cons, List.sum_cons, hph]
          congr 1
          ring
      · simp only [heightRelSum, hgs, hh]
        rw [ihr (acc + h0)]
        have hph : posHeight ps r = h0 :=
          hlit r (List.mem_cons_self _ _) sr hgs h0 hh
        simp only [List.map_cons, List.sum_cons, hph]
        congr 1
        ring

theorem calcRun_inv (cfg : SectionsConfig)
    (hsecOk : ∀ e ∈ cfg, validateSection e.1 e.2 = .ok ())
    (hrefs : ∀ e ∈ cfg,
      (∀ f, e.2.«from» = some f → f ≠ "" → (getSection cfg f).isSome = true) ∧
      (∀ lr r, e.2.heightRel = some lr → r ∈ lr → (getSection cfg r).isSome = true))
    (L : List String) (hLkeys : ∀ x ∈ L, x ∈ sectionKeys cfg)
    (hgood : GoodOrder cfg L) :
    ∀ (L2 L1 : List String), L = L1 ++ L2 →
      ∀ ps, DomIff ps L1 → Consistent cfg ps → Uniform ps → NonNegP ps →
      ∀ ps2, runList (fun i p => calcSection cfg p i) L2 ps = .ok ps2 →
      DomIff ps2 L ∧ Consistent cfg ps2 ∧ Uniform ps2 ∧ NonNegP ps2 := by
  intro L2
  induction L2 with
  | nil =>
    intro L1 hsplit ps hdom hcons hunif hnn ps2 h
    rw [runList] at h
    cases h
    rw [List.append_nil] at hsplit
    subst hsplit
    exact ⟨hdom, hcons, hunif, hnn⟩
  | cons id rest ihc =>
    intro L1 hsplit ps hdom hcons hunif hnn ps2 h
    rw [runList] at h
    have hidL : id ∈ L := by
      rw [hsplit]
      exact List.mem_append_right _ (List.mem_cons_self _ _)
    have hidkey : id ∈ sectionKeys cfg := hLkeys id hidL
    have hs0 : (getSection cfg id).isSome = true := getSection_isSome_iff.mpr hidkey
    rcases hgs : getSection cfg id with _ | s
    · rw [hgs] at hs0; cases hs0
    have hmem : (id, s) ∈ cfg := getSection_mem hgs
    have hdeps : ∀ d ∈ edgeTargets cfg s, d ∈ L1 := hgood L1 id rest hsplit s hgs
    have hdepsStored : ∀ d ∈ edgeTargets cfg s, (posLookup ps d).isSome = true :=
      fun d hd => (hdom d).mpr (hdeps d hd)
    obtain ⟨hv, hhv⟩ : ∃ hv, heightValue cfg ps s = .ok hv := by
      rw [heightValue]
      rcases hh : s.height with _ | h0
      · rcases hrl : s.heightRel with _ | lrel
        · exact ⟨0, rfl⟩
        · exact heightRelSum_ok
            (fun r hr => (hrefs _ hmem).2 lrel r hrl hr) 0
      · exact ⟨h0, rfl⟩
    have hcs : calcSection cfg ps id =
        .ok (posInsert ps id ⟨yValue cfg ps s, hv⟩) := by
      rw [calcSection]
      simp only [hgs, hhv]
    rw [hcs] at h
    have hvnn : 0 ≤ hv := by
      rw [heightValue] at hhv
      rcases hh : s.height with _ | h0
      · rw [hh] at hhv
        rcases hrl : s.heightRel with _ | lrel
        · rw [hrl] at hhv
          cases hhv
          omega
        · rw [hrl] at hhv
          refine heightRelSum_nonneg ?_ hnn 0 hv hhv (by omega)
          intro r hr sr hgsr hvr hhr
          have hmemr : (r, sr) ∈ cfg := getSection_mem hgsr
          have hfacts := validateSection_ok_facts (hsecOk _ hmemr)
          exact hfacts.2.2.1 hvr hhr
      · rw [hh] at hhv
        cases hhv
        have hfacts := validateSection_ok_facts (hsecOk _ hmem)
        exact hfacts.2.2.1 hv hh
    have hynn : 0 ≤ yValue cfg ps s := by
      rcases hfr : s.«from» with _ | f
      · simp [yValue, hfr]
      · by_cases hne : f = ""
        · simp [yValue, hfr, hne]
        · simp only [yValue, hfr]
          rw [if_neg hne]
          rcases hpl : posLookup ps f with _ | fp
          · simp
          · simp only []
            have := hnn f fp hpl
            omega
    have hLsplit2 : L = (L1 ++ [id]) ++ rest := by
      rw [hsplit, List.append_assoc, List.singleton_append]
    by_cases hidL1 : id ∈ L1
    · -- the section was already processed; the new entry repeats the
      -- stored value, so all invariants carry over unchanged
      have hstored : (posLookup ps id).isSome = true := (hdom id).mpr hidL1
      rcases hpl : posLookup ps id with _ | p0
      · rw [hpl] at hstored; cases hstored
      obtain ⟨s2, hgs2, hdeps2, hhv2, hy2⟩ := hcons id p0 hpl
      rw [hgs] at hgs2
      cases hgs2
      have hveq : (⟨yValue cfg ps s, hv⟩ : SectionPosition) = p0 := by
        have h1 : hv = p0.height := by
          rw [hhv] at hhv2
          cases hhv2
          rfl
        rcases p0 with ⟨py, ph⟩
        simp only [hy2, h1]
      rw [hveq] at h
      have hext : ∀ x, posLookup (posInsert ps id p0) x = posLookup ps x :=
        posLookup_insert_lookup hpl
      refine ihc (L1 ++ [id]) hLsplit2 (posInsert ps id p0) ?_ ?_ ?_ ?_ ps2 h
      · intro x
        rw [hext]
        constructor
        · intro hx
          exact List.mem_append_left _ ((hdom x).mp hx)
        · intro hx
          rcases List.mem_append.mp hx with hx2 | hx2
          · exact (hdom x).mpr hx2
          · rcases List.mem_singleton.mp hx2 with rfl
            exact hstored
      · exact consistent_ext hext hcons
      · intro e he
        rcases List.mem_cons.mp he with rfl | he2
        · exact posLookup_insert_self
        · rw [hext]
          exact hunif e he2
      · intro x p hp
        rw [hext] at hp
        exact hnn x p hp
    · -- first processing of the section
      have hfresh : posLookup ps id = none := by
        rcases hpl : posLookup ps id with _ | p0
        · rfl
        · exact absurd ((hdom id).mp (by rw [hpl]; rfl)) hidL1
      have hlook : ∀ x, x ≠ id →
          posLookup (posInsert ps id ⟨yValue cfg ps s, hv⟩) x = posLookup ps x :=
        fun x hx => posLookup_insert_ne hx
      have hDepsNe : ∀ d ∈ edgeTargets cfg s, d ≠ id :=
        fun d hd hdeq => hidL1 (hdeq ▸ hdeps d hd)
      -- congruence data for sections already stored in `ps`
      have hStoredNe : ∀ x, (posLookup ps x).isSome = true → x ≠ id := by
        intro x hx hxeq
        rw [hxeq, hfresh] at hx
        cases hx
      refine ihc (L1 ++ [id]) hLsplit2
        (posInsert ps id ⟨yValue cfg ps s, hv⟩) ?_ ?_ ?_ ?_ ps2 h
      · intro x
        by_cases hx : x = id
        · subst hx
          rw [posLookup_insert_self]
          simp
        · rw [hlook x hx]
          constructor
          · intro h2
            exact List.mem_append_left _ ((hdom x).mp h2)
          · intro h2
            rcases List.mem_append.mp h2 with h3 | h3
            · exact (hdom x).mpr h3
            · exact absurd (List.mem_singleton.mp h3) hx
      · intro x p hp
        by_cases hx : x = id
        · rw [hx] at hp
          rw [hx]
          rw [posLookup_insert_self] at hp
          cases hp
          refine ⟨s, hgs, ?_, ?_, ?_⟩
          · intro d hd
            rw [hlook d (hDepsNe d hd)]
            exact hdepsStored d hd
          · have hcongr : heightValue cfg
                (posInsert ps id ⟨yValue cfg ps s, hv⟩) s =
                heightValue cfg ps s := by
              refine heightValue_congr ?_
              intro lrel hlrel r hr sr hgsr hhr
              refine hlook r (hDepsNe r ?_)
              exact mem_edgeTargets_heightRel hlrel hr (by rw [hgsr]; rfl)
            rw [hcongr, hhv]
          · have hcongr : yValue cfg
                (posInsert ps id ⟨yValue cfg ps s, hv⟩) s =
                yValue cfg ps s := by
              refine yValue_congr ?_
              intro f hf hne
              refine hlook f (hDepsNe f ?_)
              exact mem_edgeTargets_from hf hne ((hrefs _ hmem).1 f hf hne)
            rw [hcongr]
        · rw [hlook x hx] at hp
          obtain ⟨sx, hgsx, hdepsx, hhx, hyx⟩ := hcons x p hp
          have hmemx : (x, sx) ∈ cfg := getSection_mem hgsx
          refine ⟨sx, hgsx, ?_, ?_, ?_⟩
          · intro d hd
            rw [hlook d (hStoredNe d (hdepsx d hd))]
            exact hdepsx d hd
          · have hcongr : heightValue cfg
                (posInsert ps id ⟨yValue cfg ps s, hv⟩) sx =
                heightValue cfg ps sx := by
              refine heightValue_congr ?_
              intro lrel hlrel r hr sr hgsr hhr
              refine hlook r (hStoredNe r (hdepsx r ?_))
              exact mem_edgeTargets_heightRel hlrel hr (by rw [hgsr]; rfl)
            rw [hcongr]
            exact hhx
          · have hcongr : yValue cfg
                (posInsert ps id ⟨yValue cfg ps s, hv⟩) sx =
                yValue cfg ps sx := by
              refine yValue_congr ?_
              intro f hf hne
              refine hlook f (hStoredNe f (hdepsx f ?_))
              exact mem_edgeTargets_from hf hne ((hrefs _ hmemx).1 f hf hne)
            rw [hcongr]
            exact hyx
      · intro e he
        rcases List.mem_cons.mp he with rfl | he2
        · exact posLookup_insert_self
        · have hne : e.1 ≠ id := hStoredNe e.1 (by rw [hunif e he2]; rfl)
          rw [hlook e.1 hne]
          exact hunif e he2
      · intro x p hp
        by_cases hx : x = id
        · subst hx
          rw [posLookup_insert_self] at hp
          cases hp
          exact ⟨hynn, hvnn⟩
        · rw [hlook x hx] at hp
          exact hnn x p hp

/-- Everything a successful construction guarantees: the validation
passes succeeded, and the computed position map covers exactly the
configured ids and satisfies all local equations. -/
theorem stack_invariants {cfg : SectionsConfig} {st : SectionStack}
    (h : constructStack cfg = .ok st) :
    st.sections = cfg ∧
    (∀ e ∈ cfg, validateSection e.1 e.2 = .ok ()) ∧
    (∀ e ∈ cfg,
      (∀ f, e.2.«from» = some f → f ≠ "" → (getSection cfg f).isSome = true) ∧
      (∀ lr r, e.2.heightRel = some lr → r ∈ lr →
        (getSection cfg r).isSome = true)) ∧
    cfg ≠ [] ∧
    (∀ x, (posLookup st.calculated x).isSome = true ↔ x ∈ sectionKeys cfg) ∧
    Consistent cfg st.calculated ∧ Uniform st.calculated ∧
    NonNegP st.calculated ∧
    ∃ L, topologicalSort cfg = .ok L ∧ (∀ x ∈ L, x ∈ sectionKeys cfg) ∧
      GoodOrder cfg L ∧ DomIff st.calculated L := by
  rw [constructStack] at h
  rcases hval : validate cfg with e | u
  · rw [hval] at h; cases h
  rw [hval] at h
  rcases hca : calculateAll cfg with e | ps
  · rw [hca] at h; cases h
  rw [hca] at h
  cases h
  rw [validate] at hval
  by_cases hlen : cfg.length = 0
  · rw [if_pos hlen] at hval; cases hval
  rw [if_neg hlen] at hval
  rcases hvs : validateSections cfg with e | u2
  · rw [hvs] at hval; cases hval
  rw [hvs] at hval
  rcases hdc : detectCircularDependencies cfg with e | u3
  · rw [hdc] at hval; cases hval
  rw [hdc] at hval
  have hsecOk := validateSections_ok_mem hvs
  have hrefs := validateReferencesAux_ok_mem (by rw [← validateReferences]; exact hval)
  rw [calculateAll] at hca
  rcases hts : topologicalSort cfg with e | L
  · rw [hts] at hca; cases hca
  rw [hts] at hca
  obtain ⟨hkeysL, hLkeys, hgood⟩ := topologicalSort_post hts
  obtain ⟨hdom, hcons, hunif, hnn⟩ :=
    calcRun_inv cfg hsecOk hrefs L hLkeys hgood L [] rfl []
      (by intro x; simp [posLookup, List.find?])
      (by intro id p hp; simp [posLookup, List.find?] at hp)
      (by intro e he; cases he)
      (by intro id p hp; simp [posLookup, List.find?] at hp)
      ps hca
  refine ⟨rfl, hsecOk, hrefs, fun hc => hlen (by rw [hc]; rfl), ?_,
    hcons, hunif, hnn, L, rfl, hLkeys, hgood, hdom⟩
  intro x
  rw [hdom x]
  exact ⟨hLkeys x, hkeysL x⟩

/-! ### Following from links reaches a root -/

theorem first_split {α : Type} [DecidableEq α] {a : α} {L : List α}
    (h : a ∈ L) : ∃ L1 L2, L = L1 ++ a :: L2 ∧ a ∉ L1 := by
  induction L with
  | nil => cases h
  | cons b rest ih =>
    by_cases hb : a = b
    · exact ⟨[], rest, by simp [hb], by simp⟩
    · rcases List.mem_cons.mp h with h2 | h2
      · exact absurd h2 hb
      · obtain ⟨L1, L2, hsp, hna⟩ := ih h2
        refine ⟨b :: L1, L2, by rw [List.cons_append, hsp], ?_⟩
        intro hmem
        rcases List.mem_cons.mp hmem with h3 | h3
        · exact hb h3
        · exact hna h3

theorem prefix_pos_lt {α : Type} {L1 : List α} {x f : α} {L2 M1 M2 : List α}
    (heq : L1 ++ x :: L2 = M1 ++ f :: M2) (hf : f ∈ L1) (hfM : f ∉ M1) :
    M1.length < L1.length := by
  rcases List.append_eq_append_iff.mp heq with ⟨a, ha1, _⟩ | ⟨c, hc1, hc2⟩
  · exact absurd (ha1 ▸ List.mem_append_left a hf) hfM
  · rcases c with _ | ⟨g, c2⟩
    · rw [List.append_nil] at hc1
      exact absurd (hc1 ▸ hf) hfM
    · rw [List.cons_append] at hc2
      injection hc2 with hg _
      rw [hc1, List.length_append, List.length_cons]
      omega

theorem reaches_of_split {cfg : SectionsConfig} {L : List String}
    (hgood : GoodOrder cfg L)
    (hsecOk : ∀ e ∈ cfg, validateSection e.1 e.2 = .ok ())
    (hrefs : ∀ e ∈ cfg,
      (∀ f, e.2.«from» = some f → f ≠ "" → (getSection cfg f).isSome = true) ∧
      (∀ lr r, e.2.heightRel = some lr → r ∈ lr →
        (getSection cfg r).isSome = true)) :
    ∀ (n : Nat) (L1 : List String) (id : String) (L2 : List String),
      L = L1 ++ id :: L2 → id ∉ L1 → L1.length = n →
      (getSection cfg id).isSome = true → ReachesRoot cfg id := by
  intro n
  induction n using Nat.strong_induction_on with
  | _ n ih =>
    intro L1 id L2 hsp hnm hlen hex
    rcases hgs : getSection cfg id with _ | s
    · rw [hgs] at hex; cases hex
    have hmem : (id, s) ∈ cfg := getSection_mem hgs
    rcases hfr : s.«from» with _ | f
    · exact ReachesRoot.root id s hgs hfr
    have hfacts := validateSection_ok_facts (hsecOk _ hmem)
    have hfblank := hfacts.2.2.2.2 f hfr
    have hfne : f ≠ "" := ne_empty_of_not_blank hfblank
    have hfex : (getSection cfg f).isSome = true := (hrefs _ hmem).1 f hfr hfne
    have hfedge : f ∈ edgeTargets cfg s := mem_edgeTargets_from hfr hfne hfex
    have hfL1 : f ∈ L1 := hgood L1 id L2 hsp s hgs f hfedge
    have hfL : f ∈ L := by
      rw [hsp]
      exact List.mem_append_left _ hfL1
    obtain ⟨M1, M2, hsp2, hnm2⟩ := first_split hfL
    have hlt : M1.length < L1.length :=
      prefix_pos_lt (by rw [← hsp]; exact hsp2) hfL1 hnm2
    exact ReachesRoot.step id s f hgs hfr
      (ih M1.length (by omega) M1 f M2 hsp2 hnm2 rfl hfex)

/-! ### Fold lemmas for getTotalHeight -/

theorem foldl_max_init_le (l : List SectionPosition) :
    ∀ b : Int, b ≤ l.foldl (fun m p => max m (p.y + p.height)) b := by
  induction l with
  | nil => intro b; simp
  | cons r rs ih =>
    intro b
    rw [List.foldl_cons]
    exact le_trans (le_max_left b (r.y + r.height)) (ih _)

theorem foldl_max_mem_le (l : List SectionPosition) :
    ∀ b : Int, ∀ p ∈ l, p.y + p.height ≤
      l.foldl (fun m p => max m (p.y + p.height)) b := by
  induction l with
  | nil => intro b p hp; cases hp
  | cons r rs ih =>
    intro b p hp
    rw [List.foldl_cons]
    rcases List.mem_cons.mp hp with rfl | hp2
    · exact le_trans (le_max_right b (p.y + p.height)) (foldl_max_init_le rs _)
    · exact ih _ p hp2

theorem foldl_max_eq (l : List SectionPosition) :
    ∀ b : Int, l.foldl (fun m p => max m (p.y + p.height)) b = b ∨
      ∃ p ∈ l, l.foldl (fun m p => max m (p.y + p.height)) b = p.y + p.height := by
  induction l with
  | nil => intro b; left; rfl
  | cons r rs ih =>
    intro b
    rw [List.foldl_cons]
    rcases ih (max b (r.y + r.height)) with h2 | ⟨p, hp, h2⟩
    · rw [h2]
      rcases max_choice b (r.y + r.height) with h3 | h3
      · left; exact h3
      · right; exact ⟨r, List.mem_cons_self _ _, h3⟩
    · right
      exact ⟨p, List.mem_cons_of_mem _ hp, h2⟩

/-! ### Claim theorems: layout geometry -/

/-- C1: for every configuration accepted by the SectionStack
constructor, every computed y equals the y of its from target plus
that target's computed height, equals 0 when from is null, and
following from links from any configured section reaches a root
section whose from is null. -/
theorem c1_y_follows_from {cfg : SectionsConfig} {st : SectionStack}
    (h : constructStack cfg = .ok st) :
    (∀ id s f, getSection cfg id = some s → s.«from» = some f →
      ∃ p pf, posLookup st.calculated id = some p ∧
        posLookup st.calculated f = some pf ∧ p.y = pf.y + pf.height) ∧
    (∀ id s, getSection cfg id = some s → s.«from» = none →
      ∃ p, posLookup st.calculated id = some p ∧ p.y = 0) ∧
    (∀ id, id ∈ sectionKeys cfg → ReachesRoot cfg id) := by
  obtain ⟨-, hsecOk, hrefs, -, hdomk, hcons, -, -, L, -, -, hgood, hdom⟩ :=
    stack_invariants h
  refine ⟨?_, ?_, ?_⟩
  · intro id s f hgs hf
    have hmem : (id, s) ∈ cfg := getSection_mem hgs
    have hfacts := validateSection_ok_facts (hsecOk _ hmem)
    have hfne : f ≠ "" := ne_empty_of_not_blank (hfacts.2.2.2.2 f hf)
    have hfex : (getSection cfg f).isSome = true := (hrefs _ hmem).1 f hf hfne
    have hstored : (posLookup st.calculated id).isSome = true :=
      (hdomk id).mpr (mem_sectionKeys hmem)
    rcases hpl : posLookup st.calculated id with _ | p
    · rw [hpl] at hstored; cases hstored
    have hfstored : (posLookup st.calculated f).isSome = true :=
      (hdomk f).mpr (getSection_isSome_iff.mp hfex)
    rcases hpf : posLookup st.calculated f with _ | pf
    · rw [hpf] at hfstored; cases hfstored
    obtain ⟨s2, hgs2, -, -, hy2⟩ := hcons id p hpl
    rw [hgs] at hgs2
    cases hgs2
    refine ⟨p, pf, rfl, rfl, ?_⟩
    rw [← hy2]
    simp only [yValue, hf]
    rw [if_neg hfne, hpf]
  · intro id s hgs hf
    have hmem : (id, s) ∈ cfg := getSection_mem hgs
    have hstored : (posLookup st.calculated id).isSome = true :=
      (hdomk id).mpr (mem_sectionKeys hmem)
    rcases hpl : posLookup st.calculated id with _ | p
    · rw [hpl] at hstored; cases hstored
    obtain ⟨s2, hgs2, -, -, hy2⟩ := hcons id p hpl
    rw [hgs] at hgs2
    cases hgs2
    refine ⟨p, rfl, ?_⟩
    rw [← hy2]
    simp [yValue, hf]
  · intro id hid
    have hidL : id ∈ L := (hdom id).mp ((hdomk id).mpr hid)
    obtain ⟨L1, L2, hsp, hnm⟩ := first_split hidL
    exact reaches_of_split hgood hsecOk hrefs L1.length L1 id L2 hsp hnm rfl
      (getSection_isSome_iff.mpr hid)

/-- C2: for every accepted configuration, a section declaring
heightRel gets as computed height the exact sum of the referenced
sections' computed heights, and any permutation of the heightRel
entries has the same sum. -/
theorem c2_heightRel_exact_sum {cfg : SectionsConfig} {st : SectionStack}
    (h : constructStack cfg = .ok st) :
    ∀ id s l, getSection cfg id = some s → s.heightRel = some l →
      ∃ p, posLookup st.calculated id = some p ∧
        (∀ r ∈ l, (posLookup st.calculated r).isSome = true) ∧
        p.height = (l.map (posHeight st.calculated)).sum ∧
        ∀ l2, List.Perm l2 l →
          (l2.map (posHeight st.calculated)).sum =
            (l.map (posHeight st.calculated)).sum := by
  obtain ⟨-, hsecOk, hrefs, -, hdomk, hcons, -, -, -, -, -, -, -⟩ :=
    stack_invariants h
  intro id s l hgs hl
  have hmem : (id, s) ∈ cfg := getSection_mem hgs
  have hfacts := validateSection_ok_facts (hsecOk _ hmem)
  have hhnone : s.height = none := by
    rcases hh : s.height with _ | h0
    · rfl
    · exact absurd ⟨by rw [hh]; rfl, by rw [hl]; rfl⟩ hfacts.2.1
  have hstored : (posLookup st.calculated id).isSome = true :=
    (hdomk id).mpr (mem_sectionKeys hmem)
  rcases hpl : posLookup st.calculated id with _ | p
  · rw [hpl] at hstored; cases hstored
  obtain ⟨s2, hgs2, -, hh2, -⟩ := hcons id p hpl
  rw [hgs] at hgs2
  cases hgs2
  have hex : ∀ r ∈ l, (getSection cfg r).isSome = true :=
    fun r hr => (hrefs _ hmem).2 l r hl hr
  have hrstored : ∀ r ∈ l, (posLookup st.calculated r).isSome = true :=
    fun r hr => (hdomk r).mpr (getSection_isSome_iff.mp (hex r hr))
  have hlit : ∀ r ∈ l, ∀ sr, getSection cfg r = some sr →
      ∀ hv, sr.height = some hv → posHeight st.calculated r = hv := by
    intro r hr sr hgsr hv hhr
    have hrs := hrstored r hr
    rcases hplr : posLookup st.calculated r with _ | pr
    · rw [hplr] at hrs; cases hrs
    obtain ⟨sr2, hgsr2, -, hhr2, -⟩ := hcons r pr hplr
    rw [hgsr] at hgsr2
    cases hgsr2
    rw [heightValue, hhr] at hhr2
    cases hhr2
    rw [posHeight, hplr]
  have hsum := heightRelSum_eq_sum hlit hex hrstored 0
  simp only [heightValue, hhnone, hl] at hh2
  rw [hsum] at hh2
  have hph : 0 + (l.map (posHeight st.calculated)).sum = p.height := by
    injection hh2
  refine ⟨p, rfl, hrstored, by omega, ?_⟩
  intro l2 hperm
  exact List.Perm.sum_eq (List.Perm.map _ hperm)

/-- C3: getTotalHeight is the maximum extent y + height over all
sections: it bounds every section and is attained by one. -/
theorem c3_total_height_max {cfg : SectionsConfig} {st : SectionStack}
    (h : constructStack cfg = .ok st) :
    (∀ id p, posLookup st.calculated id = some p →
      p.y + p.height ≤ getTotalHeight st) ∧
    (∃ id p, posLookup st.calculated id = some p ∧
      getTotalHeight st = p.y + p.height) := by
  obtain ⟨-, -, -, hne, hdomk, -, hunif, hnn, -, -, -, -, -⟩ :=
    stack_invariants h
  constructor
  · intro id p hp
    have hmem : (id, p) ∈ st.calculated := posLookup_mem hp
    have hmem2 : p ∈ st.calculated.map (fun e => e.2) :=
      List.mem_map.mpr ⟨(id, p), hmem, rfl⟩
    exact foldl_max_mem_le _ 0 p hmem2
  · rcases foldl_max_eq (st.calculated.map (fun e => e.2)) 0 with h2 | ⟨p, hp, h2⟩
    · rcases hcfg : cfg with _ | ⟨e, rest⟩
      · exact absurd hcfg hne
      have hkey : e.1 ∈ sectionKeys cfg := by
        rw [hcfg]
        exact List.mem_map.mpr ⟨e, List.mem_cons_self _ _, rfl⟩
      have hstored := (hdomk e.1).mpr hkey
      rcases hpl : posLookup st.calculated e.1 with _ | p
      · rw [hpl] at hstored; cases hstored
      refine ⟨e.1, p, hpl, ?_⟩
      have hle : p.y + p.height ≤ getTotalHeight st := by
        have hmem : (e.1, p) ∈ st.calculated := posLookup_mem hpl
        exact foldl_max_mem_le _ 0 p (List.mem_map.mpr ⟨(e.1, p), hmem, rfl⟩)
      have hnn2 := hnn e.1 p hpl
      have htot : getTotalHeight st = 0 := h2
      rw [htot]
      rw [htot] at hle
      omega
    · obtain ⟨ep, hep, hep2⟩ := List.mem_map.mp hp
      refine ⟨ep.1, p, ?_, h2⟩
      rw [← hep2]
      exact hunif ep hep

/-- C9: after successful construction, getY and getHeight succeed on
exactly the configured section ids and fail with the lookup error on
all other ids. -/
theorem c9_lookup_defensive {cfg : SectionsConfig} {st : SectionStack}
    (h : constructStack cfg = .ok st) :
    ∀ id,
      (id ∈ sectionKeys cfg →
        ∃ p, posLookup st.calculated id = some p ∧
          getY st id = .ok p.y ∧ getHeight st id = .ok p.height) ∧
      (id ∉ sectionKeys cfg →
        getY st id = .error (.base
          ("Section " ++ id ++ " not found in calculated positions")) ∧
        getHeight st id = .error (.base
          ("Section " ++ id ++ " not found in calculated positions"))) := by
  obtain ⟨-, -, -, -, hdomk, -, -, -, -, -, -, -, -⟩ := stack_invariants h
  intro id
  constructor
  · intro hid
    have hstored := (hdomk id).mpr hid
    rcases hpl : posLookup st.calculated id with _ | p
    · rw [hpl] at hstored; cases hstored
    refine ⟨p, rfl, ?_, ?_⟩
    · rw [getY, hpl]
    · rw [getHeight, hpl]
  · intro hid
    rcases hpl : posLookup st.calculated id with _ | p
    · constructor
      · rw [getY, hpl]
      · rw [getHeight, hpl]
    · exact absurd ((hdomk id).mp (by rw [hpl]; rfl)) hid

/-- C10: every computed position of an accepted configuration has
non-negative y and height, and getTotalHeight is non-negative. -/
theorem c10_nonnegative {cfg : SectionsConfig} {st : SectionStack}
    (h : constructStack cfg = .ok st) :
    (∀ id p, posLookup st.calculated id = some p →
      0 ≤ p.y ∧ 0 ≤ p.height) ∧
    0 ≤ getTotalHeight st := by
  obtain ⟨-, -, -, -, -, -, -, hnn, -, -, -, -, -⟩ := stack_invariants h
  exact ⟨hnn, foldl_max_init_le _ 0⟩

/-! ### Claim C4: getAll is a shallow copy -/

/-- C4 (code bug evidence): the constructor stores position records
for the one-section configuration, the instance map binds a to the
record cell; `spreadCopy` (the `{ ...this.calculated }` of getAll)
returns a fresh map holding the same cell reference, so mutating the
nested record obtained from one returned copy (writing y := 99 through
its reference) changes what the other copy and the instance itself
observe.  The spec requires that such a mutation affect neither. -/
theorem c4_getAll_shallow_sharing :
    constructStack [("a", ⟨some 20, none, none⟩)] =
      .ok ⟨[("a", ⟨some 20, none, none⟩)], [("a", ⟨0, 20⟩)]⟩ ∧
    spreadCopy [("a", 0)] = [("a", 0)] ∧
    refLookup (spreadCopy [("a", 0)]) "a" = refLookup [("a", 0)] "a" ∧
    getYRef [⟨0, 20⟩] [("a", 0)] "a" = some 0 ∧
    getYRef (writeCell [⟨0, 20⟩] 0 ⟨99, 20⟩) (spreadCopy [("a", 0)]) "a" =
      some 99 ∧
    getYRef (writeCell [⟨0, 20⟩] 0 ⟨99, 20⟩) [("a", 0)] "a" = some 99 :=
  ⟨rfl, rfl, rfl, rfl, rfl, rfl⟩

/-! ### Claim C8: height XOR heightRel validation -/

theorem validateSections_append_error {pre post : List (String × SectionConfig)}
    {id : String} {s : SectionConfig} {e : SectionStackError}
    (hpre : ∀ x ∈ pre, validateSection x.1 x.2 = .ok ())
    (herr : validateSection id s = .error e) :
    validateSections (pre ++ (id, s) :: post) = .error e := by
  induction pre with
  | nil =>
    rw [List.nil_append, validateSections]
    rw [herr]
  | cons p rest ih =>
    rcases p with ⟨pid, psec⟩
    rw [List.cons_append, validateSections]
    have hp := hpre ⟨pid, psec⟩ (List.mem_cons_self _ _)
    simp only at hp
    rw [hp]
    exact ih (fun x hx => hpre x (List.mem_cons_of_mem _ hx))

/-- C8: if the first per-section violation in the configuration is a
section defining neither height nor heightRel, or defining both,
construction throws the validation error tagged with that section id,
with the must-have-either message in the first case and the
cannot-have-both message in the second. -/
theorem c8_height_xor_validation (pre post : List (String × SectionConfig))
    (id : String) (s : SectionConfig)
    (hpre : ∀ x ∈ pre, validateSection x.1 x.2 = .ok ()) :
    (s.height = none ∧ s.heightRel = none →
      validate (pre ++ (id, s) :: post) = .error (.validation
        "Section must have either height or heightRel property" id)) ∧
    (s.height.isSome = true ∧ s.heightRel.isSome = true →
      validate (pre ++ (id, s) :: post) = .error (.validation
        "Section cannot have both height and heightRel properties" id)) := by
  have hlen : ¬(pre ++ (id, s) :: post).length = 0 := by simp
  constructor
  · intro hboth
    have herr : validateSection id s = .error (.validation
        "Section must have either height or heightRel property" id) := by
      rw [validateSection, if_pos hboth]
    rw [validate, if_neg hlen, validateSections_append_error hpre herr]
  · intro hboth
    have hne1 : ¬(s.height = none ∧ s.heightRel = none) := by
      intro hc
      rw [hc.1] at hboth
      cases hboth.1
    have herr : validateSection id s = .error (.validation
        "Section cannot have both height and heightRel properties" id) := by
      rw [validateSection, if_neg hne1, if_pos hboth]
    rw [validate, if_neg hlen, validateSections_append_error hpre herr]

/-- Witness for C8: both forms of the violation on one-section
configurations, via the claim theorem at pre = post = []. -/
theorem c8_height_xor_validation_witness :
    validate cfgC8a = .error (.validation
      "Section must have either height or heightRel property" "bad") ∧
    validate cfgC8b = .error (.validation
      "Section cannot have both height and heightRel properties" "bad2") :=
  ⟨(c8_height_xor_validation [] [] "bad" ⟨none, none, none⟩
      (by intro x hx; cases hx)).1 ⟨rfl, rfl⟩,
   (c8_height_xor_validation [] [] "bad2" ⟨some 3, some ["bad"], none⟩
      (by intro x hx; cases hx)).2 ⟨rfl, rfl⟩⟩

/-! ### Witnesses for the geometry claims -/

/-- Witness for C1 at cfgW1: solar sits directly below header. -/
theorem c1_y_follows_from_witness :
    ∃ p pf, posLookup stW1.calculated "solar" = some p ∧
      posLookup stW1.calculated "header" = some pf ∧ p.y = pf.y + pf.height :=
  (c1_y_follows_from (rfl : constructStack cfgW1 = .ok stW1)).1 "solar"
    ⟨some 30, none, some "header"⟩ "header" rfl rfl

/-- Witness for C2 at cfgW1: main sums header and solar. -/
theorem c2_heightRel_exact_sum_witness :
    ∃ p, posLookup stW1.calculated "main" = some p ∧
      (∀ r ∈ ["header", "solar"],
        (posLookup stW1.calculated r).isSome = true) ∧
      p.height = (["header", "solar"].map (posHeight stW1.calculated)).sum ∧
      ∀ l2, List.Perm l2 ["header", "solar"] →
        (l2.map (posHeight stW1.calculated)).sum =
          (["header", "solar"].map (posHeight stW1.calculated)).sum :=
  c2_heightRel_exact_sum (rfl : constructStack cfgW1 = .ok stW1) "main"
    ⟨none, some ["header", "solar"], some "solar"⟩ ["header", "solar"] rfl rfl

/-- Witness for C3 at cfgW1: the header extent bounds and some section
attains the total height. -/
theorem c3_total_height_max_witness :
    ((⟨0, 20⟩ : SectionPosition).y + (⟨0, 20⟩ : SectionPosition).height ≤
      getTotalHeight stW1) ∧
    ∃ id p, posLookup stW1.calculated id = some p ∧
      getTotalHeight stW1 = p.y + p.height :=
  ⟨(c3_total_height_max (rfl : constructStack cfgW1 = .ok stW1)).1 "header"
      ⟨0, 20⟩ rfl,
   (c3_total_height_max (rfl : constructStack cfgW1 = .ok stW1)).2⟩

/-- Witness for C9 at cfgW1: a configured id succeeds, an unknown id
fails with the lookup error. -/
theorem c9_lookup_defensive_witness :
    (∃ p, posLookup stW1.calculated "header" = some p ∧
      getY stW1 "header" = .ok p.y ∧ getHeight stW1 "header" = .ok p.height) ∧
    (getY stW1 "missing" = .error (.base
      ("Section " ++ "missing" ++ " not found in calculated positions")) ∧
     getHeight stW1 "missing" = .error (.base
      ("Section " ++ "missing" ++ " not found in calculated positions"))) :=
  ⟨(c9_lookup_defensive (rfl : constructStack cfgW1 = .ok stW1) "header").1
      (by decide),
   (c9_lookup_defensive (rfl : constructStack cfgW1 = .ok stW1) "missing").2
      (by decide)⟩

/-- Witness for C10 at cfgW1. -/
theorem c10_nonnegative_witness :
    0 ≤ getTotalHeight stW1 ∧
    ∃ p, posLookup stW1.calculated "main" = some p ∧ 0 ≤ p.y ∧ 0 ≤ p.height :=
  ⟨(c10_nonnegative (rfl : constructStack cfgW1 = .ok stW1)).2,
   ⟨⟨50, 50⟩, rfl,
    (c10_nonnegative (rfl : constructStack cfgW1 = .ok stW1)).1 "main"
      ⟨50, 50⟩ rfl⟩⟩

/-! ### Dependency graph helpers for cycle detection -/

theorem edgeB_true_iff {cfg : SectionsConfig} {a b : String} :
    edgeB cfg a b = true ↔
      ∃ s, getSection cfg a = some s ∧ b ∈ edgeTargets cfg s := by
  constructor
  · intro h
    rw [edgeB] at h
    rcases hgs : getSection cfg a with _ | s
    · rw [hgs] at h; cases h
    · rw [hgs] at h
      simp only [decide_eq_true_eq] at h
      exact ⟨s, rfl, h⟩
  · rintro ⟨s, hgs, hb⟩
    rw [edgeB, hgs]
    simpa using hb

theorem edgeB_of_target {cfg : SectionsConfig} {a b : String}
    {s : SectionConfig} (hgs : getSection cfg a = some s)
    (hb : b ∈ edgeTargets cfg s) : edgeB cfg a b = true :=
  edgeB_true_iff.mpr ⟨s, hgs, hb⟩

theorem edgeTargets_mem_keys {cfg : SectionsConfig} {s : SectionConfig}
    {d : String} (hd : d ∈ edgeTargets cfg s) : d ∈ sectionKeys cfg := by
  rw [edgeTargets] at hd
  rcases List.mem_append.mp hd with h2 | h2
  · rcases hfr : s.«from» with _ | f
    · simp only [hfr] at h2
      cases h2
    · simp only [hfr] at h2
      by_cases hne : f = ""
      · rw [if_pos hne] at h2; cases h2
      · rw [if_neg hne] at h2
        by_cases hex : (getSection cfg f).isSome = true
        · rw [if_pos hex] at h2
          rcases List.mem_singleton.mp h2 with rfl
          exact getSection_isSome_iff.mp hex
        · rw [if_neg hex] at h2; cases h2
  · rcases hrl : s.heightRel with _ | l
    · simp only [hrl] at h2
      cases h2
    · simp only [hrl] at h2
      exact getSection_isSome_iff.mp (List.mem_filter.mp h2).2

theorem chain_snoc {cfg : SectionsConfig} :
    ∀ (l : List String) (a b c : String), chainB cfg a l b = true →
      edgeB cfg b c = true → chainB cfg a (l ++ [b]) c = true := by
  intro l
  induction l with
  | nil =>
    intro a b c h1 h2
    rw [chainB] at h1
    rw [List.nil_append, chainB, Bool.and_eq_true]
    exact ⟨h1, h2⟩
  | cons x xs ih =>
    intro a b c h1 h2
    rw [chainB, Bool.and_eq_true] at h1
    rw [List.cons_append, chainB, Bool.and_eq_true]
    exact ⟨h1.1, ih x b c h1.2 h2⟩

theorem chain_mem_cycle {cfg : SectionsConfig} :
    ∀ (prest : List String) (p0 id : String),
      chainB cfg p0 prest id = true → id ∈ p0 :: prest →
      ∃ l, chainB cfg id l id = true := by
  intro prest
  induction prest with
  | nil =>
    intro p0 id h hm
    rcases List.mem_cons.mp hm with rfl | hm2
    · exact ⟨[], h⟩
    · cases hm2
  | cons x xs ih =>
    intro p0 id h hm
    rcases List.mem_cons.mp hm with rfl | hm2
    · exact ⟨x :: xs, h⟩
    · rw [chainB, Bool.and_eq_true] at h
      exact ih x id h.2 hm2

theorem chainB_first_edge {cfg : SectionsConfig} {a b : String}
    {l : List String} (h : chainB cfg a l b = true) :
    (getSection cfg a).isSome = true := by
  have hedge : ∃ x, edgeB cfg a x = true := by
    rcases l with _ | ⟨x, xs⟩
    · exact ⟨b, h⟩
    · rw [chainB, Bool.and_eq_true] at h
      exact ⟨x, h.1⟩
  obtain ⟨x, hx⟩ := hedge
  obtain ⟨s, hgs, -⟩ := edgeB_true_iff.mp hx
  rw [hgs]
  rfl

theorem chain_stays {cfg : SectionsConfig} {V : List String}
    (hcl : Closed cfg V) :
    ∀ (l : List String) (a b : String), a ∈ V → chainB cfg a l b = true →
      b ∈ V := by
  intro l
  induction l with
  | nil =>
    intro a b ha h
    obtain ⟨s, hgs, hb⟩ := edgeB_true_iff.mp h
    exact hcl a ha s hgs b hb
  | cons x xs ih =>
    intro a b ha h
    rw [chainB, Bool.and_eq_true] at h
    obtain ⟨s, hgs, hx⟩ := edgeB_true_iff.mp h.1
    exact ih x b (hcl a ha s hgs x hx) h.2

theorem visitDetect_ok_visiting (cfg : SectionsConfig) :
    ∀ (fuel : Nat) (id : String) (path : List String) (st st2 : DfsState),
      visitDetect cfg fuel id path st = .ok st2 → st2.visiting = st.visiting := by
  intro fuel
  induction fuel with
  | zero =>
    intro id path st st2 h
    rw [visitDetect] at h
    cases h
  | succ fuel ih =>
    intro id path st st2 h
    rw [visitDetect] at h
    by_cases h1 : id ∈ st.visiting
    · rw [if_pos h1] at h; cases h
    rw [if_neg h1] at h
    by_cases h2 : id ∈ st.visited
    · rw [if_pos h2] at h
      cases h
      rfl
    rw [if_neg h2] at h
    rcases hgs : getSection cfg id with _ | s
    · simp only [hgs] at h
      cases h
    simp only [hgs] at h
    rcases hrl : runList (fun r st0 => visitDetect cfg fuel r (path ++ [id]) st0)
        (edgeTargets cfg s) ⟨id :: st.visiting, st.visited⟩ with e | st3
    · rw [hrl] at h; cases h
    rw [hrl] at h
    cases h
    have haux : ∀ (l : List String) (sA sB : DfsState),
        runList (fun r st0 => visitDetect cfg fuel r (path ++ [id]) st0) l sA =
          .ok sB → sB.visiting = sA.visiting := by
      intro l
      induction l with
      | nil =>
        intro sA sB hh
        rw [runList] at hh
        cases hh
        rfl
      | cons r rs ihl =>
        intro sA sB hh
        rw [runList] at hh
        rcases hr : visitDetect cfg fuel r (path ++ [id]) sA with e2 | sM
        · rw [hr] at hh; cases hh
        · rw [hr] at hh
          rw [ihl sM sB hh, ih r (path ++ [id]) sA sM hr]
    have h3 : st3.visiting = id :: st.visiting := haux _ _ _ hrl
    show st3.visiting.erase id = st.visiting
    rw [h3]
    exact List.erase_cons_head _ _

theorem visitDetect_ok_inv (cfg : SectionsConfig) :
    ∀ (fuel : Nat) (id : String) (path : List String) (st st2 : DfsState),
      visitDetect cfg fuel id path st = .ok st2 →
      (∀ x ∈ st.visited, x ∉ st.visiting) →
      Closed cfg st.visited → NoCyc cfg st.visited →
      st2.visiting = st.visiting ∧
      (∀ x ∈ st.visited, x ∈ st2.visited) ∧
      id ∈ st2.visited ∧
      (∀ x ∈ st2.visited, x ∉ st.visiting) ∧
      Closed cfg st2.visited ∧ NoCyc cfg st2.visited := by
  intro fuel
  induction fuel with
  | zero =>
    intro id path st st2 h _ _ _
    rw [visitDetect] at h
    cases h
  | succ fuel ih =>
    intro id path st st2 h hdisj hcl hnc
    rw [visitDetect] at h
    by_cases h1 : id ∈ st.visiting
    · rw [if_pos h1] at h; cases h
    rw [if_neg h1] at h
    by_cases h2 : id ∈ st.visited
    · rw [if_pos h2] at h
      cases h
      exact ⟨rfl, fun x hx => hx, h2, hdisj, hcl, hnc⟩
    rw [if_neg h2] at h
    rcases hgs : getSection cfg id with _ | s
    · simp only [hgs] at h
      cases h
    simp only [hgs] at h
    rcases hrl : runList (fun r st0 => visitDetect cfg fuel r (path ++ [id]) st0)
        (edgeTargets cfg s) ⟨id :: st.visiting, st.visited⟩ with e | st3
    · rw [hrl] at h; cases h
    rw [hrl] at h
    cases h
    have haux : ∀ (l : List String) (sA sB : DfsState),
        runList (fun r st0 => visitDetect cfg fuel r (path ++ [id]) st0) l sA =
          .ok sB →
        (∀ x ∈ sA.visited, x ∉ sA.visiting) → Closed cfg sA.visited →
        NoCyc cfg sA.visited →
        sB.visiting = sA.visiting ∧
        (∀ x ∈ sA.visited, x ∈ sB.visited) ∧
        (∀ r ∈ l, r ∈ sB.visited) ∧
        (∀ x ∈ sB.visited, x ∉ sA.visiting) ∧
        Closed cfg sB.visited ∧ NoCyc cfg sB.visited := by
      intro l
      induction l with
      | nil =>
        intro sA sB hh hdA hclA hncA
        rw [runList] at hh
        cases hh
        exact ⟨rfl, fun x hx => hx, by simp, hdA, hclA, hncA⟩
      | cons r rs ihl =>
        intro sA sB hh hdA hclA hncA
        rw [runList] at hh
        rcases hr : visitDetect cfg fuel r (path ++ [id]) sA with e2 | sM
        · rw [hr] at hh; cases hh
        rw [hr] at hh
        obtain ⟨hv1, hv2, hv3, hv4, hv5, hv6⟩ :=
          ih r (path ++ [id]) sA sM hr hdA hclA hncA
        obtain ⟨hw1, hw2, hw3, hw4, hw5, hw6⟩ :=
          ihl sM sB hh (by rw [hv1]; exact hv4) hv5 hv6
        refine ⟨by rw [hw1, hv1], fun x hx => hw2 x (hv2 x hx), ?_, ?_, hw5, hw6⟩
        · intro x hx
          rcases List.mem_cons.mp hx with rfl | hx2
          · exact hw2 x hv3
          · exact hw3 x hx2
        · intro x hx
          have h4 := hw4 x hx
          rw [hv1] at h4
          exact h4
    obtain ⟨ha1, ha2, ha3, ha4, ha5, ha6⟩ := haux (edgeTargets cfg s)
      ⟨id :: st.visiting, st.visited⟩ st3 hrl
      (by
        intro x hx hx2
        rcases List.mem_cons.mp hx2 with rfl | hx3
        · exact h2 hx
        · exact hdisj x hx hx3)
      hcl hnc
    have hvisit3 : st3.visiting = id :: st.visiting := ha1
    refine ⟨?_, ?_, ?_, ?_, ?_, ?_⟩
    · show st3.visiting.erase id = st.visiting
      rw [hvisit3]
      exact List.erase_cons_head _ _
    · intro x hx
      exact List.mem_cons_of_mem _ (ha2 x hx)
    · exact List.mem_cons_self _ _
    · intro x hx
      rcases List.mem_cons.mp hx with rfl | hx2
      · exact h1
      · intro hx3
        exact ha4 x hx2 (List.mem_cons_of_mem _ hx3)
    · intro a ha sa hgsa b hb
      rcases List.mem_cons.mp ha with rfl | ha7
      · rw [hgs] at hgsa
        cases hgsa
        exact List.mem_cons_of_mem _ (ha3 b hb)
      · exact List.mem_cons_of_mem _ (ha5 a ha7 sa hgsa b hb)
    · intro a ha l
      rcases List.mem_cons.mp ha with rfl | ha7
      · cases hcb : chainB cfg a l a with
        | false => rfl
        | true =>
          exfalso
          have hmem3 : a ∈ st3.visited := by
            rcases l with _ | ⟨x, xs⟩
            · obtain ⟨s2, hgs2, hb2⟩ := edgeB_true_iff.mp hcb
              rw [hgs] at hgs2
              cases hgs2
              exact ha3 a hb2
            · rw [chainB, Bool.and_eq_true] at hcb
              obtain ⟨s2, hgs2, hb2⟩ := edgeB_true_iff.mp hcb.1
              rw [hgs] at hgs2
              cases hgs2
              exact chain_stays ha5 xs x a (ha3 x hb2) hcb.2
          exact ha4 a hmem3 (List.mem_cons_self _ _)
      · exact ha6 a ha7 l

theorem sectionKeys_length (cfg : SectionsConfig) :
    (sectionKeys cfg).length = cfg.length := by
  rw [sectionKeys, List.length_map]

theorem visitDetect_err_shape (cfg : SectionsConfig) :
    ∀ (fuel : Nat) (id : String) (path : List String) (st : DfsState)
      (e : SectionStackError),
      visitDetect cfg fuel id path st = .error e →
      id ∈ sectionKeys cfg → st.visiting.Nodup →
      (∀ x ∈ st.visiting, x ∈ sectionKeys cfg) →
      (sectionKeys cfg).length < fuel + st.visiting.length →
      ∃ cid cpath, e = .circular cid cpath := by
  intro fuel
  induction fuel with
  | zero =>
    intro id path st e h hkey hnd hsub hbound
    exfalso
    have hle : st.visiting.length ≤ (sectionKeys cfg).length :=
      List.Subperm.length_le (List.Nodup.subperm hnd hsub)
    omega
  | succ fuel ih =>
    intro id path st e h hkey hnd hsub hbound
    rw [visitDetect] at h
    by_cases h1 : id ∈ st.visiting
    · rw [if_pos h1] at h
      cases h
      exact ⟨id, path, rfl⟩
    rw [if_neg h1] at h
    by_cases h2 : id ∈ st.visited
    · rw [if_pos h2] at h; cases h
    rw [if_neg h2] at h
    rcases hgs : getSection cfg id with _ | s
    · exfalso
      have h3 := getSection_isSome_iff.mpr hkey
      rw [hgs] at h3
      cases h3
    simp only [hgs] at h
    rcases hrl : runList (fun r st0 => visitDetect cfg fuel r (path ++ [id]) st0)
        (edgeTargets cfg s) ⟨id :: st.visiting, st.visited⟩ with e2 | st3
    · rw [hrl] at h
      cases h
      have haux : ∀ (l : List String) (sA : DfsState) (e3 : SectionStackError),
          (∀ r ∈ l, r ∈ sectionKeys cfg) →
          sA.visiting = id :: st.visiting →
          runList (fun r st0 => visitDetect cfg fuel r (path ++ [id]) st0) l sA =
            .error e3 →
          ∃ cid cpath, e3 = .circular cid cpath := by
        intro l
        induction l with
        | nil =>
          intro sA e3 _ _ hh
          rw [runList] at hh
          cases hh
        | cons r rs ihl =>
          intro sA e3 hrkeys hvis hh
          rw [runList] at hh
          rcases hr : visitDetect cfg fuel r (path ++ [id]) sA with e4 | sM
          · rw [hr] at hh
            cases hh
            refine ih r (path ++ [id]) sA e3 hr
              (hrkeys r (List.mem_cons_self _ _)) ?_ ?_ ?_
            · rw [hvis]
              exact List.nodup_cons.mpr ⟨h1, hnd⟩
            · rw [hvis]
              intro x hx
              rcases List.mem_cons.mp hx with rfl | hx2
              · exact hkey
              · exact hsub x hx2
            · rw [hvis, List.length_cons]
              omega
          · rw [hr] at hh
            refine ihl sM e3
              (fun r2 hr2 => hrkeys r2 (List.mem_cons_of_mem _ hr2)) ?_ hh
            rw [visitDetect_ok_visiting cfg fuel r (path ++ [id]) sA sM hr, hvis]
      exact haux (edgeTargets cfg s) ⟨id :: st.visiting, st.visited⟩ e
        (fun r hr => edgeTargets_mem_keys hr) rfl hrl
    · rw [hrl] at h
      cases h

theorem visitDetect_err_cycle (cfg : SectionsConfig) :
    ∀ (fuel : Nat) (id : String) (path : List String) (st : DfsState)
      (cid : String) (cpath : List String),
      visitDetect cfg fuel id path st = .error (.circular cid cpath) →
      st.visiting = path.reverse →
      (path = [] ∨ ∃ p0 prest, path = p0 :: prest ∧
        chainB cfg p0 prest id = true) →
      ∃ a l, chainB cfg a l a = true := by
  intro fuel
  induction fuel with
  | zero =>
    intro id path st cid cpath h _ _
    rw [visitDetect] at h
    injection h with h2
    cases h2
  | succ fuel ih =>
    intro id path st cid cpath h hvis hchain
    rw [visitDetect] at h
    by_cases h1 : id ∈ st.visiting
    · have hidpath : id ∈ path := by
        rw [hvis] at h1
        exact List.mem_reverse.mp h1
      rcases hchain with rfl | ⟨p0, prest, rfl, hch⟩
      · cases hidpath
      · obtain ⟨l2, hl2⟩ := chain_mem_cycle prest p0 id hch hidpath
        exact ⟨id, l2, hl2⟩
    rw [if_neg h1] at h
    by_cases h2 : id ∈ st.visited
    · rw [if_pos h2] at h; cases h
    rw [if_neg h2] at h
    rcases hgs : getSection cfg id with _ | s
    · simp only [hgs] at h
      injection h with h3
      cases h3
    simp only [hgs] at h
    rcases hrl : runList (fun r st0 => visitDetect cfg fuel r (path ++ [id]) st0)
        (edgeTargets cfg s) ⟨id :: st.visiting, st.visited⟩ with e2 | st3
    · rw [hrl] at h
      injection h with h3
      subst h3
      have hchain2 : ∀ r, r ∈ edgeTargets cfg s →
          ∃ p0 prest, path ++ [id] = p0 :: prest ∧
            chainB cfg p0 prest r = true := by
        intro r hr
        have hedge : edgeB cfg id r = true := edgeB_of_target hgs hr
        rcases hchain with rfl | ⟨p0, prest, rfl, hch⟩
        · exact ⟨id, [], rfl, hedge⟩
        · exact ⟨p0, prest ++ [id], by rw [List.cons_append],
            chain_snoc prest p0 id r hch hedge⟩
      have haux : ∀ (l : List String) (sA : DfsState),
          (∀ r ∈ l, r ∈ edgeTargets cfg s) →
          sA.visiting = (path ++ [id]).reverse →
          runList (fun r st0 => visitDetect cfg fuel r (path ++ [id]) st0) l sA =
            .error (.circular cid cpath) →
          ∃ a l2, chainB cfg a l2 a = true := by
        intro l
        induction l with
        | nil =>
          intro sA _ _ hh
          rw [runList] at hh
          cases hh
        | cons r rs ihl =>
          intro sA hrtg hvisA hh
          rw [runList] at hh
          rcases hr : visitDetect cfg fuel r (path ++ [id]) sA with e4 | sM
          · rw [hr] at hh
            injection hh with h4
            subst h4
            exact ih r (path ++ [id]) sA cid cpath hr hvisA
              (Or.inr (hchain2 r (hrtg r (List.mem_cons_self _ _))))
          · rw [hr] at hh
            refine ihl sM (fun r2 hr2 => hrtg r2 (List.mem_cons_of_mem _ hr2))
              ?_ hh
            rw [visitDetect_ok_visiting cfg fuel r (path ++ [id]) sA sM hr,
              hvisA]
      refine haux (edgeTargets cfg s) ⟨id :: st.visiting, st.visited⟩
        (fun r hr => hr) ?_ hrl
      show id :: st.visiting = (path ++ [id]).reverse
      rw [List.reverse_append, hvis]
      rfl
    · rw [hrl] at h
      cases h

/-- A successful cycle-detection pass means the dependency graph has
no cycle at all. -/
theorem detect_ok_noCycle {cfg : SectionsConfig}
    (h : detectCircularDependencies cfg = .ok ()) :
    ∀ a l, chainB cfg a l a = false := by
  rw [detectCircularDependencies] at h
  rcases hall : detectVisitAll cfg (cfg.length + 1) (sectionKeys cfg) ⟨[], []⟩
    with e | stF
  · rw [hall] at h; cases h
  have haux : ∀ (ids : List String) (sA sB : DfsState),
      detectVisitAll cfg (cfg.length + 1) ids sA = .ok sB →
      sA.visiting = [] → Closed cfg sA.visited → NoCyc cfg sA.visited →
      (∀ x ∈ sA.visited, x ∈ sB.visited) ∧
      (∀ k ∈ ids, k ∈ sB.visited) ∧ NoCyc cfg sB.visited := by
    intro ids
    induction ids with
    | nil =>
      intro sA sB hh hv hcl hnc
      rw [detectVisitAll] at hh
      cases hh
      exact ⟨fun x hx => hx, by simp, hnc⟩
    | cons k ks ihl =>
      intro sA sB hh hv hcl hnc
      rw [detectVisitAll] at hh
      rcases hk : visitDetect cfg (cfg.length + 1) k [] sA with e2 | sM
      · rw [hk] at hh; cases hh
      rw [hk] at hh
      obtain ⟨hv1, hv2, hv3, hv4, hv5, hv6⟩ :=
        visitDetect_ok_inv cfg _ k [] sA sM hk
          (by
            intro x hx hx2
            rw [hv] at hx2
            cases hx2)
          hcl hnc
      obtain ⟨hm2, hw1, hw2⟩ := ihl sM sB hh (by rw [hv1, hv]) hv5 hv6
      refine ⟨fun x hx => hm2 x (hv2 x hx), ?_, hw2⟩
      intro k2 hk2
      rcases List.mem_cons.mp hk2 with rfl | hk3
      · exact hm2 k2 hv3
      · exact hw1 k2 hk3
  obtain ⟨-, hkeys, hnc⟩ := haux (sectionKeys cfg) ⟨[], []⟩ stF hall rfl
    (by intro a ha s hg b hb; cases ha) (by intro a ha l; cases ha)
  intro a l
  cases hcb : chainB cfg a l a with
  | false => rfl
  | true =>
    exfalso
    have hak : a ∈ sectionKeys cfg :=
      getSection_isSome_iff.mp (chainB_first_edge hcb)
    have h5 := hnc a (hkeys a hak) l
    rw [hcb] at h5
    cases h5

/-- Any error of the cycle-detection pass is the circular-dependency
error: the fuel of the embedding is sufficient and the unguarded
lookup never fires. -/
theorem detect_err_shape {cfg : SectionsConfig} {e : SectionStackError}
    (h : detectCircularDependencies cfg = .error e) :
    ∃ cid cpath, e = .circular cid cpath := by
  rw [detectCircularDependencies] at h
  rcases hall : detectVisitAll cfg (cfg.length + 1) (sectionKeys cfg) ⟨[], []⟩
    with e2 | stF
  · rw [hall] at h
    cases h
    have haux : ∀ (ids : List String) (sA : DfsState) (e3 : SectionStackError),
        (∀ k ∈ ids, k ∈ sectionKeys cfg) → sA.visiting = [] →
        detectVisitAll cfg (cfg.length + 1) ids sA = .error e3 →
        ∃ cid cpath, e3 = .circular cid cpath := by
      intro ids
      induction ids with
      | nil =>
        intro sA e3 _ _ hh
        rw [detectVisitAll] at hh
        cases hh
      | cons k ks ihl =>
        intro sA e3 hkeys hv hh
        rw [detectVisitAll] at hh
        rcases hk : visitDetect cfg (cfg.length + 1) k [] sA with e4 | sM
        · rw [hk] at hh
          cases hh
          refine visitDetect_err_shape cfg _ k [] sA e3 hk
            (hkeys k (List.mem_cons_self _ _)) ?_ ?_ ?_
          · rw [hv]; exact List.nodup_nil
          · rw [hv]; intro x hx; cases hx
          · rw [hv, List.length_nil, sectionKeys_length]
            omega
        · rw [hk] at hh
          refine ihl sM e3 (fun k2 hk2 => hkeys k2 (List.mem_cons_of_mem _ hk2))
            ?_ hh
          rw [visitDetect_ok_visiting cfg _ k [] sA sM hk, hv]
    exact haux (sectionKeys cfg) ⟨[], []⟩ e (fun k hk => hk) rfl hall
  · rw [hall] at h
    cases h

/-- A circular-dependency error of the cycle-detection pass comes from
a real cycle in the dependency graph. -/
theorem detect_err_cycle {cfg : SectionsConfig} {cid : String}
    {cpath : List String}
    (h : detectCircularDependencies cfg = .error (.circular cid cpath)) :
    ∃ a l, chainB cfg a l a = true := by
  rw [detectCircularDependencies] at h
  rcases hall : detectVisitAll cfg (cfg.length + 1) (sectionKeys cfg) ⟨[], []⟩
    with e2 | stF
  · rw [hall] at h
    injection h with h2
    subst h2
    have haux : ∀ (ids : List String) (sA : DfsState),
        sA.visiting = [] →
        detectVisitAll cfg (cfg.length + 1) ids sA =
          .error (.circular cid cpath) →
        ∃ a l, chainB cfg a l a = true := by
      intro ids
      induction ids with
      | nil =>
        intro sA _ hh
        rw [detectVisitAll] at hh
        cases hh
      | cons k ks ihl =>
        intro sA hv hh
        rw [detectVisitAll] at hh
        rcases hk : visitDetect cfg (cfg.length + 1) k [] sA with e4 | sM
        · rw [hk] at hh
          injection hh with h3
          subst h3
          exact visitDetect_err_cycle cfg _ k [] sA cid cpath hk
            (by rw [hv]; rfl) (Or.inl rfl)
        · rw [hk] at hh
          refine ihl sM ?_ hh
          rw [visitDetect_ok_visiting cfg _ k [] sA sM hk, hv]
    exact haux (sectionKeys cfg) ⟨[], []⟩ rfl hall
  · rw [hall] at h
    cases h

/-! ### Claim C5: cycle detection precedes reference validation -/

/-- C5: a per-section-valid configuration whose dependency graph
contains a cycle and which also contains a reference to a missing id
fails with the circular-dependency error, not the missing-reference
error: cycle detection runs before reference-existence validation. -/
theorem c5_cycle_reported_before_missing (cfg : SectionsConfig) (a : String)
    (l : List String) (hcyc : chainB cfg a l a = true)
    (hmiss : hasMissingRef cfg = true)
    (hval : validateSections cfg = .ok ()) :
    ∃ cid cpath, validate cfg = .error (.circular cid cpath) := by
  have hlen : ¬cfg.length = 0 := by
    have hk := getSection_isSome_iff.mp (chainB_first_edge hcyc)
    intro h0
    rcases cfg with _ | ⟨e, rest⟩
    · cases hk
    · rw [List.length_cons] at h0
      omega
  rcases hdc : detectCircularDependencies cfg with e | u
  · obtain ⟨cid, cpath, rfl⟩ := detect_err_shape hdc
    refine ⟨cid, cpath, ?_⟩
    rw [validate, if_neg hlen]
    simp only [hval, hdc]
  · exfalso
    have h2 := detect_ok_noCycle hdc a l
    rw [hcyc] at h2
    cases h2

/-- Witness for C5 at cfgC5w: a from cycle between a and b together
with a heightRel reference of c to the missing id zz. -/
theorem c5_cycle_reported_before_missing_witness :
    chainB cfgC5w "a" ["b"] "a" = true ∧ hasMissingRef cfgC5w = true ∧
    ∃ cid cpath, validate cfgC5w = .error (.circular cid cpath) :=
  ⟨rfl, rfl, c5_cycle_reported_before_missing cfgC5w "a" ["b"] rfl rfl rfl⟩

/-! ### Claim C7: missing references raise the missing-reference error -/

theorem checkRefList_error {cfg : SectionsConfig} {sid : String} :
    ∀ (l : List String) (e : SectionStackError),
      checkRefList cfg sid l = .error e →
      ∃ r, e = .missing sid r ∧ r ∈ l ∧ getSection cfg r = none := by
  intro l
  induction l with
  | nil =>
    intro e h
    rw [checkRefList] at h
    cases h
  | cons r rs ih =>
    intro e h
    rw [checkRefList] at h
    by_cases hs : (getSection cfg r).isSome = true
    · rw [if_pos hs] at h
      obtain ⟨r2, h1, h2, h3⟩ := ih e h
      exact ⟨r2, h1, List.mem_cons_of_mem _ h2, h3⟩
    · rw [if_neg hs] at h
      injection h with h2
      refine ⟨r, h2.symm, List.mem_cons_self _ _, ?_⟩
      rcases hg : getSection cfg r with _ | s2
      · rfl
      · rw [hg] at hs
        exact absurd rfl hs

theorem refsAux_error_of_missing (cfg : SectionsConfig) :
    ∀ (entries : List (String × SectionConfig)),
      (entries.any (fun e =>
        (match e.2.«from» with
         | some f => decide (f ≠ "") && (getSection cfg f).isNone
         | none => false) ||
        (match e.2.heightRel with
         | some l => l.any (fun r => (getSection cfg r).isNone)
         | none => false))) = true →
      ∃ rid mid s,
        validateReferencesAux cfg entries = .error (.missing rid mid) ∧
        (rid, s) ∈ entries ∧ getSection cfg mid = none ∧
        ((s.«from» = some mid ∧ mid ≠ "") ∨
          ∃ lr, s.heightRel = some lr ∧ mid ∈ lr) := by
  intro entries
  induction entries with
  | nil =>
    intro h
    rw [List.any_nil] at h
    cases h
  | cons e rest ih =>
    intro hany
    rcases e with ⟨sectionId, s⟩
    rw [validateReferencesAux]
    rcases hfc : (match s.«from» with
           | some f =>
             if f = "" then Except.ok ()
             else if (getSection cfg f).isSome then Except.ok ()
             else Except.error (SectionStackError.missing sectionId f)
           | none => Except.ok ()) with er | u
    · -- the from reference of the head is missing
      have hana : ∃ f, s.«from» = some f ∧ f ≠ "" ∧ getSection cfg f = none ∧
          er = .missing sectionId f := by
        rcases hfr : s.«from» with _ | f
        · simp only [hfr] at hfc
          cases hfc
        simp only [hfr] at hfc
        by_cases hne : f = ""
        · rw [if_pos hne] at hfc
          cases hfc
        rw [if_neg hne] at hfc
        by_cases hex : (getSection cfg f).isSome = true
        · rw [if_pos hex] at hfc
          cases hfc
        rw [if_neg hex] at hfc
        injection hfc with h2
        refine ⟨f, rfl, hne, ?_, h2.symm⟩
        rcases hg : getSection cfg f with _ | s2
        · rfl
        · rw [hg] at hex
          exact absurd rfl hex
      obtain ⟨f, hfr, hne, hnone, rfl⟩ := hana
      refine ⟨sectionId, f, s, ?_, List.mem_cons_self _ _, hnone,
        Or.inl ⟨hfr, hne⟩⟩
      simp only [hfc]
    · rcases hhc : (match s.heightRel with
             | some l => checkRefList cfg sectionId l
             | none => Except.ok ()) with er | u2
      · -- a heightRel reference of the head is missing
        have hana : ∃ lr r, s.heightRel = some lr ∧ r ∈ lr ∧
            getSection cfg r = none ∧ er = .missing sectionId r := by
          rcases hrl : s.heightRel with _ | lr
          · simp only [hrl] at hhc
            cases hhc
          simp only [hrl] at hhc
          obtain ⟨r, hre, hrm, hrn⟩ := checkRefList_error lr er hhc
          exact ⟨lr, r, rfl, hrm, hrn, hre⟩
        obtain ⟨lr, r, hrl, hrm, hrn, rfl⟩ := hana
        refine ⟨sectionId, r, s, ?_, List.mem_cons_self _ _, hrn,
          Or.inr ⟨lr, hrl, hrm⟩⟩
        simp only [hfc, hhc]
      · -- the head has no missing reference, recurse into the tail
        have hheadfalse : ((match s.«from» with
            | some f => decide (f ≠ "") && (getSection cfg f).isNone
            | none => false) ||
            (match s.heightRel with
             | some l => l.any (fun r => (getSection cfg r).isNone)
             | none => false)) = false := by
          rw [Bool.or_eq_false_iff]
          constructor
          · rcases hfr : s.«from» with _ | f
            · simp only [hfr]
            · simp only [hfr] at hfc ⊢
              by_cases hne : f = ""
              · simp [hne]
              · rw [if_neg hne] at hfc
                by_cases hex : (getSection cfg f).isSome = true
                · rcases hg : getSection cfg f with _ | s2
                  · rw [hg] at hex
                    cases hex
                  · simp [hg]
                · rw [if_neg hex] at hfc
                  cases hfc
          · rcases hrl : s.heightRel with _ | lr
            · simp only [hrl]
            · simp only [hrl] at hhc ⊢
              rw [List.any_eq_false]
              intro r hr
              have hok := checkRefList_ok hhc r hr
              rcases hg : getSection cfg r with _ | s2
              · rw [hg] at hok
                cases hok
              · simp [hg]
        rw [List.any_cons, hheadfalse, Bool.false_or] at hany
        obtain ⟨rid, mid, s2, h1, h2, h3, h4⟩ := ih hany
        refine ⟨rid, mid, s2, ?_, List.mem_cons_of_mem _ h2, h3, h4⟩
        simp only [hfc, hhc]
        exact h1

/-- C7: an acyclic, per-section-valid configuration in which some
section references an id absent from the mapping fails with the
missing-reference error, carrying the referencing section id and the
missing id. -/
theorem c7_missing_reference_error (cfg : SectionsConfig)
    (hacyc : ∀ a l, chainB cfg a l a = false)
    (hval : validateSections cfg = .ok ())
    (hmiss : hasMissingRef cfg = true) (hne : cfg ≠ []) :
    ∃ rid mid s, validate cfg = .error (.missing rid mid) ∧
      (rid, s) ∈ cfg ∧ getSection cfg mid = none ∧
      ((s.«from» = some mid ∧ mid ≠ "") ∨
        ∃ lr, s.heightRel = some lr ∧ mid ∈ lr) := by
  have hlen : ¬cfg.length = 0 := by
    intro h0
    exact hne (List.length_eq_zero.mp h0)
  rcases hdc : detectCircularDependencies cfg with e | u
  · exfalso
    obtain ⟨cid, cpath, rfl⟩ := detect_err_shape hdc
    obtain ⟨a, l, hcyc⟩ := detect_err_cycle hdc
    have h2 := hacyc a l
    rw [hcyc] at h2
    cases h2
  · rw [hasMissingRef] at hmiss
    obtain ⟨rid, mid, s, h1, h2, h3, h4⟩ := refsAux_error_of_missing cfg cfg hmiss
    refine ⟨rid, mid, s, ?_, h2, h3, h4⟩
    rw [validate, if_neg hlen]
    simp only [hval, hdc]
    rw [validateReferences]
    exact h1

theorem c7_noedge : ∀ x y, edgeB cfgC7w x y = false := by
  intro x y
  rcases hgs : getSection cfgC7w x with _ | s
  · rw [edgeB]
    simp only [hgs]
  · have hmem := getSection_mem hgs
    rcases List.mem_cons.mp hmem with h1 | h1
    · rw [Prod.mk.injEq] at h1
      obtain ⟨rfl, rfl⟩ := h1
      rw [edgeB]
      simp only [hgs]
      simp [edgeTargets]
    · rcases List.mem_cons.mp h1 with h2 | h2
      · rw [Prod.mk.injEq] at h2
        obtain ⟨rfl, rfl⟩ := h2
        rw [edgeB]
        simp only [hgs]
        have hzz : getSection cfgC7w "zz" = none := rfl
        simp [edgeTargets, hzz]
      · cases h2

theorem noedge_noCycle {cfg : SectionsConfig}
    (h : ∀ x y, edgeB cfg x y = false) :
    ∀ a l, chainB cfg a l a = false := by
  intro a l
  rcases l with _ | ⟨x, xs⟩
  · rw [chainB]
    exact h a a
  · rw [chainB, h a x]
    rfl

/-- Witness for C7 at cfgC7w: the b section references the missing id
zz. -/
theorem c7_missing_reference_error_witness :
    ∃ rid mid s, validate cfgC7w = .error (.missing rid mid) ∧
      (rid, s) ∈ cfgC7w ∧ getSection cfgC7w mid = none ∧
      ((s.«from» = some mid ∧ mid ≠ "") ∨
        ∃ lr, s.heightRel = some lr ∧ mid ∈ lr) :=
  c7_missing_reference_error cfgC7w (noedge_noCycle c7_noedge) rfl rfl
    (by decide)

/-! ### Claim C6: a two-section from cycle throws the circular error -/

/-- C6: constructing from a configuration with a 2-cycle (a.from = b,
b.from = a, each section per-section valid) terminates and throws the
circular-dependency error, carrying the id that closed the cycle and
the traversal path [a, b]. -/
theorem c6_two_cycle_circular (a b : String) (ha hb : Int)
    (hba : isBlank a = false) (hbb : isBlank b = false) (hab : a ≠ b)
    (hha : 0 ≤ ha) (hhb : 0 ≤ hb) :
    constructStack
        [(a, ⟨some ha, none, some b⟩), (b, ⟨some hb, none, some a⟩)] =
      .error (.circular a [a, b]) := by
  have hane : a ≠ "" := ne_empty_of_not_blank hba
  have hbne : b ≠ "" := ne_empty_of_not_blank hbb
  have hgsa : getSection
      [(a, ⟨some ha, none, some b⟩), (b, ⟨some hb, none, some a⟩)] a =
      some ⟨some ha, none, some b⟩ := by
    rw [getSection, List.find?_cons_of_pos _ (by simp)]
    rfl
  have hgsb : getSection
      [(a, ⟨some ha, none, some b⟩), (b, ⟨some hb, none, some a⟩)] b =
      some ⟨some hb, none, some a⟩ := by
    rw [getSection, List.find?_cons_of_neg _ (by simp [hab]),
      List.find?_cons_of_pos _ (by simp)]
    rfl
  have hta : edgeTargets
      [(a, ⟨some ha, none, some b⟩), (b, ⟨some hb, none, some a⟩)]
      ⟨some ha, none, some b⟩ = [b] := by
    simp [edgeTargets, hbne, hgsb]
  have htb : edgeTargets
      [(a, ⟨some ha, none, some b⟩), (b, ⟨some hb, none, some a⟩)]
      ⟨some hb, none, some a⟩ = [a] := by
    simp [edgeTargets, hane, hgsa]
  have hva : validateSection a ⟨some ha, none, some b⟩ = .ok () := by
    simp [validateSection, checkHeight, checkHeightRel, checkFrom, hbb,
      not_lt.mpr hha]
  have hvb : validateSection b ⟨some hb, none, some a⟩ = .ok () := by
    simp [validateSection, checkHeight, checkHeightRel, checkFrom, hba,
      not_lt.mpr hhb]
  have hvs : validateSections
      [(a, ⟨some ha, none, some b⟩), (b, ⟨some hb, none, some a⟩)] =
      .ok () := by
    rw [validateSections]
    simp only [hva]
    rw [validateSections]
    simp only [hvb]
    rfl
  have hstep0 : ∀ (n : Nat) (path : List String) (st : DfsState),
      a ∈ st.visiting →
      visitDetect [(a, ⟨some ha, none, some b⟩), (b, ⟨some hb, none, some a⟩)]
        (n + 1) a path st = .error (.circular a path) := by
    intro n path st h1
    rw [visitDetect, if_pos h1]
  have hstep1 : ∀ (n : Nat),
      visitDetect [(a, ⟨some ha, none, some b⟩), (b, ⟨some hb, none, some a⟩)]
        (n + 1 + 1) b [a] ⟨[a], []⟩ = .error (.circular a [a, b]) := by
    intro n
    rw [visitDetect]
    rw [if_neg (by simp [Ne.symm hab])]
    rw [if_neg (by simp)]
    simp only [hgsb, htb]
    rw [runList]
    rw [hstep0 n ([a] ++ [b]) ⟨[b, a], []⟩ (by simp)]
    rfl
  have hstep2 : ∀ (n : Nat),
      visitDetect [(a, ⟨some ha, none, some b⟩), (b, ⟨some hb, none, some a⟩)]
        (n + 1 + 1 + 1) a [] ⟨[], []⟩ = .error (.circular a [a, b]) := by
    intro n
    rw [visitDetect]
    rw [if_neg (by simp)]
    rw [if_neg (by simp)]
    simp only [hgsa, hta]
    rw [runList]
    rw [show ([] : List String) ++ [a] = [a] from rfl]
    rw [hstep1 n]
  have hdet : detectCircularDependencies
      [(a, ⟨some ha, none, some b⟩), (b, ⟨some hb, none, some a⟩)] =
      .error (.circular a [a, b]) := by
    have hall : detectVisitAll
        [(a, ⟨some ha, none, some b⟩), (b, ⟨some hb, none, some a⟩)]
        (List.length
          ([(a, ⟨some ha, none, some b⟩), (b, ⟨some hb, none, some a⟩)] :
            SectionsConfig) + 1)
        (sectionKeys
          [(a, ⟨some ha, none, some b⟩), (b, ⟨some hb, none, some a⟩)])
        ⟨[], []⟩ = .error (.circular a [a, b]) := by
      show detectVisitAll
        [(a, ⟨some ha, none, some b⟩), (b, ⟨some hb, none, some a⟩)]
        (0 + 1 + 1 + 1) [a, b] ⟨[], []⟩ = .error (.circular a [a, b])
      rw [detectVisitAll]
      rw [hstep2 0]
    rw [detectCircularDependencies]
    simp only [hall]
  have hval : validate
      [(a, ⟨some ha, none, some b⟩), (b, ⟨some hb, none, some a⟩)] =
      .error (.circular a [a, b]) := by
    rw [validate, if_neg (by simp)]
    simp only [hvs, hdet]
  rw [constructStack]
  simp only [hval]

/-- Witness for C6: the concrete sections a and b with heights 20 and
30 referencing each other through from. -/
theorem c6_two_cycle_circular_witness :
    constructStack
        [("a", ⟨some 20, none, some "b"⟩), ("b", ⟨some 30, none, some "a"⟩)] =
      .error (.circular "a" ["a", "b"]) :=
  c6_two_cycle_circular "a" "b" 20 30 rfl rfl (by decide) (by decide)
    (by decide)

end Timeviz
